import Mathlib

/-!
# Entropy server (`common/tools/win32/entropy`): Slotter, Aggregator, Protocol

A shallow embedding of the C++ sources.

Conventions.
* `DWORD` values are natural numbers below `2^32`; every `DWORD` operation of
  the source reduces modulo `2^32` explicitly.
* `int` / `LONG` values are integers; a conversion `DWORD -> int` is the two's
  complement reading `toInt`, a conversion `int -> DWORD` is `toDWORD`.
* A `BYTE*` handed to the Slotter is the heap block it points to, given by its
  contents (`List BYTE`); a null pointer is `none`.
* An execution that has no defined result in C++ (failed `assert`, `memcpy`
  with a negative length or past the end of a block, a loop that never
  leaves) is an `Except.error` carrying a `Fault`.
-/

namespace Entropy

/-- One octet. -/
abbrev BYTE := Nat

/-- Two to the power 32, the modulus of `DWORD` arithmetic. -/
abbrev DWORD_MOD : Nat := 4294967296

/-- Two to the power 31, the first value an `int` cannot hold. -/
abbrev INT_LIMIT : Nat := 2147483648

/-- Conversion `int -> DWORD` (reduction modulo `2^32`). -/
def toDWORD (i : Int) : Nat := (i % 4294967296).toNat

/-- Conversion `DWORD -> int` (two's complement reading of the 32 bits). -/
def toInt (d : Nat) : Int :=
  if d % DWORD_MOD < INT_LIMIT then ((d % DWORD_MOD : Nat) : Int)
  else ((d % DWORD_MOD : Nat) : Int) - 4294967296

/-- The `DWORD` subtraction `a - b`, modulo `2^32`. -/
def dwSub (a b : Nat) : Nat := (a % DWORD_MOD + (DWORD_MOD - b % DWORD_MOD)) % DWORD_MOD

/-- The `DWORD` addition `a + b`, modulo `2^32`. -/
def dwAdd (a b : Nat) : Nat := (a + b) % DWORD_MOD

/-- Ways in which a C++ execution fails to produce a result. -/
inductive Fault where
  /-- An `assert(...)` does not hold. -/
  | assertion
  /-- A `memcpy` with a negative length or outside the source/destination block. -/
  | memory
  /-- The loop was still running when the step budget ran out. -/
  | fuel
  deriving DecidableEq, Repr

/-! ## Slotter (`Slotter.h`, `Slotter.cpp`) -/

/-- Data members of `class Slotter`. -/
structure Slotter where
  /-- Member `DWORD dwAvailable` -/
  dwAvailable : Nat
  /-- Member `std::list<BYTE*> slots`, front of the list first -/
  slots : List (List BYTE)
  /-- Member `BYTE* slice` (`NULL` is `none`) -/
  slice : Option (List BYTE)
  /-- Member `int slice_avail` -/
  slice_avail : Int
  /-- Member `int slice_length` -/
  slice_length : Int
  deriving DecidableEq, Repr

namespace Slotter

/-- The constructor `Slotter::Slotter(int slen)`, which the static start-up
call of the class runs with the slice length. -/
def create (slen : Int) : Slotter :=
  { dwAvailable := 0, slots := [], slice := none, slice_avail := 0, slice_length := slen }

/-- Source: `Slotter::doPush(BYTE* data)`. -/
def doPush (s : Slotter) (data : Option (List BYTE)) : Slotter :=
  match data with
  | some d =>
      { s with dwAvailable := toDWORD ((s.dwAvailable : Int) + s.slice_length),
               slots := s.slots ++ [d] }
  | none => s

/-- Source: `Slotter::updateSlice()`.  A failing `assert(slice == NULL)` ends the execution. -/
def updateSlice (s : Slotter) : Except Fault Slotter :=
  if s.slice_avail = 0 then
    if s.slice.isSome then Except.error Fault.assertion
    else
      match s.slots with
      | d :: rest => Except.ok { s with slice := some d, slots := rest, slice_avail := s.slice_length }
      | [] => Except.ok s
  else Except.ok s

/-- The `slice_avail == 0` epilogue of `copyFromSlice`: the drained block is freed. -/
def releaseDrained (s : Slotter) : Slotter :=
  if s.slice_avail = 0 then { s with slice := none } else s

/-- Source: `Slotter::copyFromSlice(BYTE* dst, int required)`.  The result is the
returned `int`, the new object state and the bytes stored at `dst`.  The
`memcpy` reads `tobecopied` bytes at offset `slice_length - slice_avail` of the
block; a negative length (it would become a huge `size_t`) or a range outside
the block has no defined result. -/
def copyFromSlice (s : Slotter) (required : Int) : Except Fault (Int × Slotter × List BYTE) :=
  let tobecopied : Int := if required < s.slice_avail then required else s.slice_avail
  if 0 < s.slice_avail then
    match s.slice with
    | none => Except.error Fault.assertion
    | some block =>
        let off : Int := s.slice_length - s.slice_avail
        if 0 ≤ tobecopied ∧ 0 ≤ off ∧ off + tobecopied ≤ (block.length : Int) then
          Except.ok (tobecopied,
            releaseDrained { s with slice_avail := s.slice_avail - tobecopied },
            (block.drop off.toNat).take tobecopied.toNat)
        else Except.error Fault.memory
  else Except.ok (tobecopied, releaseDrained s, [])

/-- The `while (gathered < count)` loop of `doRequest`, run for at most `fuel`
iterations.  `out` collects the bytes stored through `tmp`: an iteration that
stores bytes stores `inc` of them and then advances `tmp` by `inc`, so the
stores are consecutive and `out` is the content of `buffer[0 .. gathered)`. -/
def gather : Nat → Slotter → Nat → Nat → List BYTE → Except Fault (Slotter × List BYTE)
  | 0, s, gathered, count, out =>
    if gathered < count then Except.error Fault.fuel else Except.ok (s, out)
  | fuel + 1, s, gathered, count, out =>
    if gathered < count then
      match updateSlice s with
      | Except.error e => Except.error e
      | Except.ok s1 =>
        match copyFromSlice s1 (toInt (dwSub count gathered)) with
        | Except.error e => Except.error e
        | Except.ok (inc, s2, bytes) =>
            gather fuel s2 (toDWORD ((gathered : Int) + inc)) count (out ++ bytes)
    else Except.ok (s, out)

/-- Source: `Slotter::doRequest(BYTE* buffer, DWORD count)`.  `buffer` is `true` for a
non-null destination.  The result is the returned `bool`, the new state and
the bytes written to the destination, in address order from `buffer[0]`. -/
def doRequest (fuel : Nat) (s : Slotter) (buffer : Bool) (count : Nat) :
    Except Fault (Bool × Slotter × List BYTE) :=
  if count > s.dwAvailable then Except.ok (false, s, [])
  else if buffer then
    match gather fuel s 0 count [] with
    | Except.error e => Except.error e
    | Except.ok (s1, out) => Except.ok (true, { s1 with dwAvailable := dwSub s1.dwAvailable count }, out)
  else Except.ok (true, s, [])

/-- Source: `Slotter::push(BYTE* data)` (the body under the critical section). -/
def push (s : Slotter) (data : Option (List BYTE)) : Slotter := doPush s data

/-- Source: `Slotter::available()`. -/
def available (s : Slotter) : Nat := s.dwAvailable

/-- Source: `Slotter::request(BYTE* buffer, DWORD count)` (the body under the critical section). -/
def request (fuel : Nat) (s : Slotter) (buffer : Bool) (count : Nat) :
    Except Fault (Bool × Slotter × List BYTE) :=
  doRequest fuel s buffer count

/-- The bytes the reservoir still holds, in the order in which they will be
served: the unread tail of the partial slice, then the queued slices. -/
def pending (s : Slotter) : List BYTE :=
  (match s.slice with
   | some block => block.drop (s.slice_length - s.slice_avail).toNat
   | none => []) ++ s.slots.flatten

/-- Shape of a Slotter whose slices are all `L` bytes long. -/
def WF (L : Nat) (s : Slotter) : Prop :=
  s.slice_length = (L : Int) ∧ 0 ≤ s.slice_avail ∧ s.slice_avail ≤ (L : Int) ∧
  (s.slice_avail = 0 → s.slice = none) ∧
  (0 < s.slice_avail → ∃ block, s.slice = some block ∧ block.length = L) ∧
  (∀ block ∈ s.slots, block.length = L)

/-- The representation invariant of the reservoir for slice length `L`: the
shape `WF` together with the cached counter being the number of pending bytes
reduced to a `DWORD`. -/
def Inv (L : Nat) (s : Slotter) : Prop :=
  WF L s ∧ s.dwAvailable = (pending s).length % DWORD_MOD

/-- States the public interface can produce from the constructor call with
slice length `L`: pushes of a null pointer or of an `L`-byte block, and
requests (of a `DWORD` count, with or without destination) that return. -/
inductive Reachable (L : Nat) : Slotter → Prop where
  | start : Reachable L (create (L : Int))
  | push (s : Slotter) (data : Option (List BYTE)) :
      Reachable L s → (∀ block, data = some block → block.length = L) →
      Reachable L (push s data)
  | request (s : Slotter) (fuel : Nat) (buffer : Bool) (count : Nat)
      (ret : Bool) (s' : Slotter) (out : List BYTE) :
      Reachable L s → count < DWORD_MOD →
      request fuel s buffer count = Except.ok (ret, s', out) →
      Reachable L s'

/-- One call on the public interface. -/
inductive Op where
  | push (data : Option (List BYTE))
  | request (buffer : Bool) (count : Nat)
  deriving DecidableEq, Repr

/-- What one `request` call did: the count asked for, the returned `bool` and
the bytes written to the destination. -/
structure Served where
  count : Nat
  ret : Bool
  bytes : List BYTE
  deriving DecidableEq, Repr

/-- Runs a sequence of calls, every request with the same loop budget, and
logs the requests in call order. -/
def run (fuel : Nat) : Slotter → List Op → Except Fault (Slotter × List Served)
  | s, [] => Except.ok (s, [])
  | s, Op.push data :: ops => run fuel (push s data) ops
  | s, Op.request buffer count :: ops =>
    match request fuel s buffer count with
    | Except.error e => Except.error e
    | Except.ok (ret, s', out) =>
      match run fuel s' ops with
      | Except.error e => Except.error e
      | Except.ok (sf, log) => Except.ok (sf, { count := count, ret := ret, bytes := out } :: log)

/-- Concatenation of the pushed slices, in push order. -/
def pushedBytes : List Op → List BYTE
  | [] => []
  | Op.push (some block) :: ops => block ++ pushedBytes ops
  | Op.push none :: ops => pushedBytes ops
  | Op.request _ _ :: ops => pushedBytes ops

/-- Concatenation of the bytes written by the successful requests, in request order. -/
def writtenBytes : List Served → List BYTE
  | [] => []
  | e :: log => if e.ret then e.bytes ++ writtenBytes log else writtenBytes log

/-- Sum of the counts of the successful requests. -/
def servedCount : List Served → Nat
  | [] => 0
  | e :: log => if e.ret then e.count + servedCount log else servedCount log

/-- The calls of the FIFO contract: every push hands over a non-null block of
`L` bytes, every request has a non-null destination and a `DWORD` count. -/
def OpsOK (L : Nat) (ops : List Op) : Prop :=
  ∀ op ∈ ops, match op with
    | Op.push data => ∃ block, data = some block ∧ block.length = L
    | Op.request buffer count => buffer = true ∧ count < DWORD_MOD

/-- A block of `2^31 - 1` zero bytes, the longest slice an `int` length admits. -/
def maxBlock : List BYTE := List.replicate 2147483647 0

/-- The reservoir after `count` pushes of `maxBlock` with slice length `2^31 - 1`. -/
def maxFilled : Nat → Slotter
  | 0 => create 2147483647
  | count + 1 => push (maxFilled count) (some maxBlock)

/-- The reservoir of slice length 20 holding one slice of twenty `0x01` bytes. -/
def oneSlice : Slotter := push (create 20) (some (List.replicate 20 1))

/-- Performs `c` successive calls `request(dst, 1)`, every call with loop budget `fuel`.
The result is the final state, the bytes the calls wrote, in call order, and
whether every call returned `true`. -/
def drainBytes (fuel : Nat) : Nat → Slotter → Except Fault (Slotter × List BYTE × Bool)
  | 0, s => Except.ok (s, [], true)
  | c + 1, s =>
    match request fuel s true 1 with
    | Except.error e => Except.error e
    | Except.ok (ret, s1, out1) =>
      match drainBytes fuel c s1 with
      | Except.error e => Except.error e
      | Except.ok (s2, out2, all) => Except.ok (s2, out1 ++ out2, ret && all)

/-- Pushes the given blocks, first block first. -/
def pushAll (s : Slotter) (slices : List (List BYTE)) : Slotter :=
  slices.foldl (fun acc block => push acc (some block)) s

/-- Scenario S4: slice length 20, push twenty `0x01`, push twenty `0x02`,
`request(30)`, `request(10)`. -/
def scenarioS4 : List Op :=
  [Op.push (some (List.replicate 20 1)), Op.push (some (List.replicate 20 2)),
   Op.request true 30, Op.request true 10]

end Slotter


/-- The reservoir of slice length 20 after 410 pushes of a 20-byte slice (8200 bytes). -/
def Slotter.filled410 : Slotter :=
  Slotter.pushAll (Slotter.create 20) (List.replicate 410 (List.replicate 20 7))


/-! ## Aggregator (`Aggregator.h`, `Aggregator.cpp`)

`double dEntropy` is a rational number: the only arithmetic on it is the
addition of 1.5 or 1 to a sum of such terms, which binary floating point
performs without rounding (every value is a multiple of 0.5 far below `2^52`).
The hash object behind `hHash` belongs to the platform's crypto provider; it
is represented by the sequence of records handed to `CryptHashData`. -/

/-- Constant `#define OUTBYTES 20` -/
def OUTBYTES : Nat := 20

/-- Constant `#define OUTBITS (OUTBYTES * 8)` -/
def OUTBITS : Nat := OUTBYTES * 8

/-- Constant `#define MOUSE_ENTROPY_PER_SAMPLE 1.5` -/
def MOUSE_ENTROPY_PER_SAMPLE : ℚ := 3 / 2

/-- Constant `#define KEY_ENTROPY_PER_SAMPLE 1` -/
def KEY_ENTROPY_PER_SAMPLE : ℚ := 1

/-- Win32 `POINT` (two `LONG`s). -/
structure POINT where
  x : Int
  y : Int
  deriving DecidableEq, Repr

/-- Record `struct KeyPressed`. -/
structure KeyPressed where
  /-- Member `BYTE bScanCode` -/
  bScanCode : Nat
  /-- Member `DWORD dwTickCount` -/
  dwTickCount : Nat
  /-- Member `BOOL isUp` (non-zero is `true`) -/
  isUp : Bool
  deriving DecidableEq, Repr

/-- Record `struct MousePosition`. -/
structure MousePosition where
  /-- Member `POINT ptMousePos` -/
  ptMousePos : POINT
  /-- Member `DWORD dwTickCount` -/
  dwTickCount : Nat
  deriving DecidableEq, Repr

/-- A record handed to `CryptHashData`: the raw bytes of one event structure. -/
inductive HashInput where
  | mouse (event : MousePosition)
  | key (event : KeyPressed)
  deriving DecidableEq, Repr

/-- Data members of `class Aggregator`. -/
structure Aggregator where
  /-- Member `double dEntropy` -/
  dEntropy : ℚ
  /-- Member `DWORD cbRequested` -/
  cbRequested : Nat
  /-- Member `POINT ptLastPos` -/
  ptLastPos : POINT
  /-- Member `BYTE bLastScanCode` -/
  bLastScanCode : Nat
  /-- Member `BYTE* pbHashData`: whether the digest buffer is allocated -/
  pbHashData : Bool
  /-- Member `DWORD dwLastTime` -/
  dwLastTime : Nat
  /-- Member `HCRYPTHASH hHash`: `none` is the null handle, otherwise the records absorbed so far -/
  hHash : Option (List HashInput)
  deriving DecidableEq

namespace Aggregator

/-- Source: `Aggregator::Aggregator()`. -/
def new : Aggregator :=
  { dEntropy := 0, cbRequested := OUTBITS, ptLastPos := { x := 0, y := 0 },
    bLastScanCode := 0, pbHashData := false, dwLastTime := 0, hHash := none }

/-- Source: `Aggregator::requested()`. -/
def requested (a : Aggregator) : Nat := a.cbRequested

/-- Source: `Aggregator::entropy()`. -/
def entropy (a : Aggregator) : ℚ := a.dEntropy

/-- Source: `Aggregator::init()`.  `cursor` is what `GetCursorPos` delivers (`none`
when it fails); `crypto` tells whether creating the hash, querying its size
(at least `OUTBYTES`) and allocating the digest buffer all succeed. -/
def init (a : Aggregator) (cursor : Option POINT) (crypto : Bool) : Bool × Aggregator :=
  match cursor with
  | none => (false, a)
  | some p =>
    if crypto then (true, { a with ptLastPos := p, hHash := some [], pbHashData := true })
    else (false, { a with ptLastPos := p })

/-- Source: `Aggregator::enoughEntropy()`. -/
def enoughEntropy (a : Aggregator) : Bool := decide ((a.cbRequested : ℚ) ≤ a.dEntropy)

/-- Source: `CryptHashData(hHash, (BYTE*)event, sizeof(*event), 0)`, its result ignored:
a live hash object absorbs the record, a null handle makes the call fail. -/
def absorb (a : Aggregator) (record : HashInput) : Aggregator :=
  match a.hHash with
  | some absorbed => { a with hHash := some (absorbed ++ [record]) }
  | none => a

/-- Source: `Aggregator::handle(MousePosition* event)`. -/
def handleMouse (a : Aggregator) (event : MousePosition) : Bool × Aggregator :=
  let a1 := absorb a (HashInput.mouse event)
  if (event.ptMousePos.x ≠ a1.ptLastPos.x ∨ event.ptMousePos.y ≠ a1.ptLastPos.y)
      ∧ dwSub event.dwTickCount a1.dwLastTime > 100 then
    (true, { a1 with ptLastPos := event.ptMousePos, dwLastTime := event.dwTickCount,
                     dEntropy := a1.dEntropy + MOUSE_ENTROPY_PER_SAMPLE })
  else (false, a1)

/-- Source: `Aggregator::handle(KeyPressed* event)`. -/
def handleKey (a : Aggregator) (event : KeyPressed) : Bool × Aggregator :=
  let a1 := absorb a (HashInput.key event)
  if event.isUp = true ∨ (a1.bLastScanCode ≠ event.bScanCode
      ∧ dwSub event.dwTickCount a1.dwLastTime > 100) then
    (true, { a1 with bLastScanCode := event.bScanCode, dwLastTime := event.dwTickCount,
                     dEntropy := a1.dEntropy + KEY_ENTROPY_PER_SAMPLE })
  else (false, a1)

/-- Feeds mouse samples in order, as the message loop does. -/
def feedMouse (a : Aggregator) (samples : List MousePosition) : Aggregator :=
  samples.foldl (fun acc event => (handleMouse acc event).2) a

/-- The constructed and successfully initialised Aggregator for a cursor snapshot. -/
def started (cursor : POINT) : Aggregator := (init new (some cursor) true).2

/-- Consecutive samples differ by 150 ms (in `DWORD` arithmetic) and by `(1,1)`. -/
def Chained : List MousePosition → Prop
  | [] => True
  | [_] => True
  | e1 :: e2 :: rest =>
    e2.dwTickCount = dwAdd e1.dwTickCount 150 ∧
      e2.ptMousePos.x = e1.ptMousePos.x + 1 ∧ e2.ptMousePos.y = e1.ptMousePos.y + 1 ∧
      Chained (e2 :: rest)

/-- The `n` samples that start at `(x, y)`, tick `tick` and advance by `(1,1)` and 150 ms. -/
def diagonal (x y : Int) (tick : Nat) : Nat → List MousePosition
  | 0 => []
  | n + 1 =>
    { ptMousePos := { x := x, y := y }, dwTickCount := tick }
      :: diagonal (x + 1) (y + 1) (dwAdd tick 150) n

end Aggregator


/-! ## Counter (`Counter.h`, `Counter.cpp`) -/

/-- Data members of `class Counter` (six `int`s). -/
structure Counter where
  lastRequest : Int
  lastSuccessRequest : Int
  maxRequest : Int
  maxSuccessRequest : Int
  cntRequest : Int
  cntSuccessRequest : Int
  deriving DecidableEq, Repr

namespace Counter

/-- Source: `Counter::Counter()`. -/
def new : Counter :=
  { lastRequest := 0, lastSuccessRequest := 0, maxRequest := 0, maxSuccessRequest := 0,
    cntRequest := 0, cntSuccessRequest := 0 }

/-- The `int` increment `x += 1` as the compiled code performs it (two's complement). -/
def incr (x : Int) : Int := toInt (toDWORD (x + 1))

/-- Source: `Counter::registerRequest(int size, bool success)`. -/
def registerRequest (c : Counter) (size : Int) (success : Bool) : Counter :=
  let c1 := { c with lastRequest := size }
  let c2 := if c1.lastRequest > c1.maxRequest then { c1 with maxRequest := c1.lastRequest } else c1
  let c3 := { c2 with cntRequest := incr c2.cntRequest }
  if success then
    let c4 := { c3 with lastSuccessRequest := size }
    let c5 :=
      if c4.lastSuccessRequest > c4.maxSuccessRequest then
        { c4 with maxSuccessRequest := c4.lastSuccessRequest }
      else c4
    { c5 with cntSuccessRequest := incr c5.cntSuccessRequest }
  else c3

end Counter

namespace Counter

/-- Applies a sequence of `registerRequest(size, success)` calls, first call first. -/
def registerAll (c : Counter) (calls : List (Int × Bool)) : Counter :=
  calls.foldl (fun acc call => registerRequest acc call.1 call.2) c

end Counter


/-! ## Protocol (`Protocol.h`, `Protocol.cpp`)

The host is little-endian (Win32).  `ntohl` and `htonl` are the Winsock byte
swaps.  The socket is outside the object: a call of `WSASend` / `WSARecv` is
reported as the I/O request the handler posted. -/

/-- Constant `#define DATABUFSIZE 8192` -/
def DATABUFSIZE : Nat := 8192

/-- Constant `#define ENTROPY_SUCCESS ((char)0xFF)`, as the octet put on the wire. -/
def ENTROPY_SUCCESS : BYTE := 255

/-- Constant `#define ENTROPY_FAIL ((char)0x00)` -/
def ENTROPY_FAIL : BYTE := 0

/-- The `DWORD` whose bytes in memory, lowest address first, are the given ones
(little-endian host); this is what `memcpy(&bytes, src, n)` leaves in a zeroed
`DWORD` for `n <= 4`. -/
def loadLE : List BYTE → Nat
  | [] => 0
  | b :: rest => b + 256 * loadLE rest

/-- The four bytes of a `DWORD` in memory, lowest address first (little-endian host). -/
def storeLE (d : Nat) : List BYTE :=
  [d % 256, d / 256 % 256, d / 65536 % 256, d / 16777216 % 256]

/-- Winsock `ntohl` on a little-endian host: reversal of the four bytes. -/
def ntohl (d : Nat) : Nat :=
  (d % 256) * 16777216 + (d / 256 % 256) * 65536 + (d / 65536 % 256) * 256
    + d / 16777216 % 256

/-- Winsock `htonl` on a little-endian host: the same reversal. -/
def htonl (d : Nat) : Nat := ntohl d

/-- Stores `bytes` at offset `off` of a byte array (`memcpy` into the array, or
an assignment to one element). -/
def writeAt (buf : List BYTE) (off : Nat) (bytes : List BYTE) : List BYTE :=
  buf.take off ++ bytes ++ buf.drop (off + bytes.length)

/-- The overlapped I/O request a call of `handle` posts before it returns. -/
inductive Posted where
  /-- A call of `WSASend` for `len` bytes starting at `buffer + offset` -/
  | send (offset len : Nat)
  /-- A call of `WSARecv` into `len` bytes starting at `buffer + offset` -/
  | recv (offset len : Nat)
  deriving DecidableEq, Repr

/-- Data members of `class Protocol` (without the socket and the `OVERLAPPED`). -/
structure Protocol where
  /-- Member `CHAR buffer[DATABUFSIZE]`, as octets -/
  buffer : List BYTE
  /-- Member `dataBuf.buf`, as an offset into `buffer` -/
  dataBufOffset : Nat
  /-- Member `dataBuf.len` -/
  dataBufLen : Nat
  /-- Member `DWORD bytesSEND` -/
  bytesSEND : Nat
  /-- Member `DWORD bytesTOBESENT` -/
  bytesTOBESENT : Nat
  /-- Member `DWORD bytesRECV` -/
  bytesRECV : Nat
  deriving DecidableEq, Repr

namespace Protocol

/-- Source: `Protocol::Protocol(SOCKET)`; `contents` is whatever the uninitialised
array holds. -/
def new (contents : List BYTE) : Protocol :=
  { buffer := contents, dataBufOffset := 0, dataBufLen := DATABUFSIZE,
    bytesSEND := 0, bytesTOBESENT := 0, bytesRECV := 0 }

/-- Completion of the posted `WSARecv`: the system has stored the received
bytes at `dataBuf.buf` before `WorkerRoutine` calls `handle`. -/
def received (p : Protocol) (bytes : List BYTE) : Protocol :=
  { p with buffer := writeAt p.buffer p.dataBufOffset bytes }

/-- The `if (bytesRECV == 0)` branch of `handle` from the call of
`Slotter::request` on, for the decoded count `res`: ask the Slotter to write at
`buffer + 1`, report to the statistics counter (whose parameter is an `int`),
set status byte and response length. -/
def serve (fuel : Nat) (p : Protocol) (slotter : Slotter) (counter : Counter)
    (bytesTransferred res : Nat) : Except Fault (Protocol × Slotter × Counter) :=
  match Slotter.request fuel slotter true res with
  | Except.error e => Except.error e
  | Except.ok (succ, slotter1, out) =>
    if p.buffer.length < 1 + out.length then Except.error Fault.memory
    else
      let counter1 := Counter.registerRequest counter (toInt res) succ
      let p1 := { p with bytesRECV := bytesTransferred, bytesSEND := 0,
                         buffer := writeAt p.buffer 1 out }
      if succ then
        Except.ok ({ p1 with buffer := writeAt p1.buffer 0 [ENTROPY_SUCCESS],
                             bytesTOBESENT := dwAdd res 1 }, slotter1, counter1)
      else
        Except.ok ({ p1 with buffer := writeAt p1.buffer 0 [ENTROPY_FAIL],
                             bytesTOBESENT := 1 }, slotter1, counter1)

/-- The `if (bytesRECV == 0)` branch of `handle`: `memcpy` the received bytes
into the zeroed `DWORD bytes` (at most four fit), `ntohl`, then `serve`. -/
def handleRequest (fuel : Nat) (p : Protocol) (slotter : Slotter) (counter : Counter)
    (bytesTransferred : Nat) : Except Fault (Protocol × Slotter × Counter) :=
  if 4 < bytesTransferred ∨ p.buffer.length < p.dataBufOffset + bytesTransferred then
    Except.error Fault.memory
  else
    serve fuel p slotter counter bytesTransferred
      (ntohl (loadLE ((p.buffer.drop p.dataBufOffset).take bytesTransferred)))

/-- The second half of `handle`: post the next send, or reset and post the next read. -/
def postNext (p : Protocol) : Protocol × Posted :=
  if p.bytesTOBESENT > p.bytesSEND then
    ({ p with dataBufOffset := p.bytesSEND, dataBufLen := p.bytesTOBESENT - p.bytesSEND },
      Posted.send p.bytesSEND (p.bytesTOBESENT - p.bytesSEND))
  else
    ({ p with bytesRECV := 0, dataBufLen := DATABUFSIZE, dataBufOffset := 0 },
      Posted.recv 0 DATABUFSIZE)

/-- Source: `Protocol::handle(DWORD bytesTransferred)`, with the process-wide Slotter
and statistics counter passed explicitly. -/
def handle (fuel : Nat) (p : Protocol) (slotter : Slotter) (counter : Counter)
    (bytesTransferred : Nat) : Except Fault ((Protocol × Posted) × Slotter × Counter) :=
  if p.bytesRECV = 0 then
    match handleRequest fuel p slotter counter bytesTransferred with
    | Except.error e => Except.error e
    | Except.ok (p1, slotter1, counter1) => Except.ok (postNext p1, slotter1, counter1)
  else
    Except.ok (postNext { p with bytesSEND := dwAdd p.bytesSEND bytesTransferred },
      slotter, counter)

/-- The response computed for the current request: `buffer[0 .. bytesTOBESENT)`. -/
def response (p : Protocol) : List BYTE := p.buffer.take p.bytesTOBESENT

/-- A freshly constructed handler whose array happens to hold zeros. -/
def fresh : Protocol := new (List.replicate 8192 0)

end Protocol


namespace Protocol

/-- The I/O request the write phase is to post when `sent` of `toSend` bytes
are acknowledged: a send of exactly `buffer[sent .. toSend)` while bytes are
unsent, the next read (into the whole buffer) once `sent` has reached `toSend`. -/
def expectedPost (toSend sent : Nat) : Posted :=
  if sent < toSend then Posted.send sent (toSend - sent) else Posted.recv 0 DATABUFSIZE

end Protocol


/-! # Theorems -/

/-! ### Arithmetic of the machine types -/

theorem toInt_of_lt (d : Nat) (h : d < INT_LIMIT) : toInt d = (d : Int) := by
  unfold toInt
  have h1 : d % DWORD_MOD = d := Nat.mod_eq_of_lt (by unfold INT_LIMIT at h; unfold DWORD_MOD; omega)
  rw [h1, if_pos h]

theorem toInt_neg_of_ge (d : Nat) (h : INT_LIMIT ≤ d) (h2 : d < DWORD_MOD) : toInt d < 0 := by
  unfold toInt
  have h1 : d % DWORD_MOD = d := Nat.mod_eq_of_lt h2
  rw [h1, if_neg (by omega)]
  unfold DWORD_MOD at h2
  omega

theorem dwSub_of_le (a b : Nat) (hab : b ≤ a) (ha : a < DWORD_MOD) : dwSub a b = a - b := by
  unfold dwSub
  unfold DWORD_MOD at *
  omega

theorem toDWORD_natCast (n : Nat) (h : n < DWORD_MOD) : toDWORD (n : Int) = n := by
  unfold toDWORD
  unfold DWORD_MOD at h
  omega

theorem toDWORD_lt (i : Int) : toDWORD i < DWORD_MOD := by
  unfold toDWORD DWORD_MOD
  omega

theorem dwSub_lt (a b : Nat) : dwSub a b < DWORD_MOD := by
  unfold dwSub
  exact Nat.mod_lt _ (by decide)

/-! ### One iteration of the withdrawal loop -/

theorem length_flatten_const (L : Nat) (l : List (List BYTE))
    (h : ∀ block ∈ l, block.length = L) : l.flatten.length = l.length * L := by
  induction l with
  | nil => simp
  | cons b rest ih =>
    have hb : b.length = L := h b (List.mem_cons_self _ _)
    have hr : rest.flatten.length = rest.length * L :=
      ih (fun x hx => h x (List.mem_cons_of_mem _ hx))
    simp only [List.flatten_cons, List.length_append, List.length_cons, hb, hr]
    rw [Nat.add_mul, Nat.one_mul, Nat.add_comm]

theorem Slotter.pending_length (L : Nat) (s : Slotter) (h : Slotter.WF L s) :
    ((Slotter.pending s).length : Int) = (s.slots.length : Int) * (L : Int) + s.slice_avail := by
  obtain ⟨hlen, h0, hle, hnone, hsome, hslots⟩ := h
  have hq := length_flatten_const L s.slots hslots
  unfold Slotter.pending
  rw [List.length_append, hq]
  rcases lt_or_ge 0 s.slice_avail with hpos | hnp
  · obtain ⟨block, hb, hbl⟩ := hsome hpos
    rw [hb]
    simp only [List.length_drop, hbl, hlen]
    push_cast
    omega
  · have hz : s.slice_avail = 0 := by omega
    rw [hnone hz, hz]
    simp

theorem Slotter.updateSlice_spec (L : Nat) (s : Slotter) (hL : 0 < L) (h : Slotter.WF L s)
    (hne : 0 < (Slotter.pending s).length) :
    ∃ s1, Slotter.updateSlice s = Except.ok s1 ∧ Slotter.WF L s1 ∧
      Slotter.pending s1 = Slotter.pending s ∧ 0 < s1.slice_avail ∧
      s1.dwAvailable = s.dwAvailable := by
  obtain ⟨hlen, h0, hle, hnone, hsome, hslots⟩ := h
  by_cases hz : s.slice_avail = 0
  · have hsl : s.slice = none := hnone hz
    cases hs : s.slots with
    | nil =>
      exfalso
      unfold Slotter.pending at hne
      rw [hsl, hs] at hne
      simp at hne
    | cons d rest =>
      have hd : d.length = L := hslots d (by rw [hs]; exact List.mem_cons_self _ _)
      refine ⟨{ s with slice := some d, slots := rest, slice_avail := s.slice_length }, ?_, ?_, ?_, ?_, rfl⟩
      · unfold Slotter.updateSlice
        rw [if_pos hz, hsl, hs]
        rfl
      · refine ⟨hlen, ?_, ?_, ?_, ?_, ?_⟩
        · show 0 ≤ s.slice_length
          omega
        · show s.slice_length ≤ (L : Int)
          omega
        · intro hc
          exfalso
          have : s.slice_length = 0 := hc
          omega
        · intro _
          exact ⟨d, rfl, hd⟩
        · intro b hb
          exact hslots b (by rw [hs]; exact List.mem_cons_of_mem _ hb)
      · unfold Slotter.pending
        rw [hsl, hs]
        simp
      · show 0 < s.slice_length
        omega
  · refine ⟨s, ?_, ⟨hlen, h0, hle, hnone, hsome, hslots⟩, rfl, by omega, rfl⟩
    unfold Slotter.updateSlice
    rw [if_neg hz]

theorem Slotter.copyFromSlice_spec (L : Nat) (s : Slotter) (n : Nat) (h : Slotter.WF L s)
    (hpos : 0 < s.slice_avail) (hn : 0 < n) :
    ∃ s2, Slotter.copyFromSlice s (n : Int)
        = Except.ok (((min n s.slice_avail.toNat : Nat) : Int), s2,
            (Slotter.pending s).take (min n s.slice_avail.toNat)) ∧
      Slotter.WF L s2 ∧
      Slotter.pending s2 = (Slotter.pending s).drop (min n s.slice_avail.toNat) ∧
      s2.dwAvailable = s.dwAvailable := by
  obtain ⟨hlen, h0, hle, hnone, hsome, hslots⟩ := h
  obtain ⟨block, hb, hbl⟩ := hsome hpos
  have htc : (if (n : Int) < s.slice_avail then (n : Int) else s.slice_avail)
      = ((min n s.slice_avail.toNat : Nat) : Int) := by
    split_ifs with hc
    · rw [min_eq_left (by omega)]
    · rw [min_eq_right (by omega)]
      omega
  have hk1 : min n s.slice_avail.toNat ≤ s.slice_avail.toNat := min_le_right _ _
  have hk0 : 0 < min n s.slice_avail.toNat := lt_min hn (by omega)
  generalize hk : min n s.slice_avail.toNat = k at htc hk1 hk0 ⊢
  have hoff : (s.slice_length - s.slice_avail).toNat + s.slice_avail.toNat = L := by omega
  generalize hm : (s.slice_length - s.slice_avail).toNat = m at hoff
  have hpend : Slotter.pending s = block.drop m ++ s.slots.flatten := by
    unfold Slotter.pending
    rw [hb, hm]
  have hdl : (block.drop m).length = s.slice_avail.toNat := by
    rw [List.length_drop, hbl]
    omega
  refine ⟨Slotter.releaseDrained { s with slice_avail := s.slice_avail - (k : Int) }, ?_, ?_, ?_, ?_⟩
  · unfold Slotter.copyFromSlice
    simp only [htc, hpos, if_true, hb]
    rw [if_pos (by constructor <;> [omega; constructor <;> omega])]
    rw [hpend, List.take_append_of_le_length (by omega), hm]
    simp
  · unfold Slotter.releaseDrained
    split_ifs with hc
    · refine ⟨hlen, ?_, ?_, ?_, ?_, hslots⟩
      · show 0 ≤ s.slice_avail - (k : Int)
        omega
      · show s.slice_avail - (k : Int) ≤ (L : Int)
        omega
      · intro _
        rfl
      · intro hc2
        exfalso
        have h3 : s.slice_avail - (k : Int) = 0 := hc
        have h4 : 0 < s.slice_avail - (k : Int) := hc2
        omega
    · refine ⟨hlen, ?_, ?_, ?_, ?_, hslots⟩
      · show 0 ≤ s.slice_avail - (k : Int)
        omega
      · show s.slice_avail - (k : Int) ≤ (L : Int)
        omega
      · intro hc2
        exact absurd hc2 hc
      · intro _
        exact ⟨block, hb, hbl⟩
  · rw [hpend]
    unfold Slotter.releaseDrained Slotter.pending
    split_ifs with hc
    · have hka : k = s.slice_avail.toNat := by
        have h3 : s.slice_avail - (k : Int) = 0 := hc
        omega
      simp only []
      rw [List.drop_append_of_le_length (by omega), hka, ← hdl, List.drop_length]
    · simp only [hb]
      rw [List.drop_append_of_le_length (by omega), List.drop_drop]
      congr 2
      omega
  · unfold Slotter.releaseDrained
    split_ifs <;> rfl

/-! ### The withdrawal loop -/

theorem Slotter.gather_spec (L : Nat) (hL : 0 < L) :
    ∀ (fuel : Nat) (s : Slotter) (gathered count : Nat) (out : List BYTE),
      Slotter.WF L s → gathered ≤ count → count < DWORD_MOD →
      count - gathered < INT_LIMIT → count - gathered ≤ (Slotter.pending s).length →
      count - gathered ≤ fuel →
      ∃ s', Slotter.gather fuel s gathered count out
          = Except.ok (s', out ++ (Slotter.pending s).take (count - gathered)) ∧
        Slotter.WF L s' ∧
        Slotter.pending s' = (Slotter.pending s).drop (count - gathered) ∧
        s'.dwAvailable = s.dwAvailable := by
  intro fuel
  induction fuel with
  | zero =>
    intro s gathered count out hwf hgc _ _ _ hfuel
    have hn : ¬ gathered < count := by omega
    have h0 : count - gathered = 0 := by omega
    refine ⟨s, ?_, hwf, ?_, rfl⟩
    · rw [Slotter.gather, if_neg hn, h0]
      simp
    · rw [h0]
      simp
  | succ fuel ih =>
    intro s gathered count out hwf hgc hcount hint hpend hfuel
    by_cases hlt : gathered < count
    · have hn1 : 0 < count - gathered := by omega
      obtain ⟨s1, hu, hwf1, hp1, hpos1, hd1⟩ :=
        Slotter.updateSlice_spec L s hL hwf (by omega)
      obtain ⟨s2, hc, hwf2, hp2, hd2⟩ :=
        Slotter.copyFromSlice_spec L s1 (count - gathered) hwf1 hpos1 hn1
      have hreq : toInt (dwSub count gathered) = ((count - gathered : Nat) : Int) := by
        rw [dwSub_of_le count gathered hgc hcount, toInt_of_lt _ hint]
      generalize hk : min (count - gathered) s1.slice_avail.toNat = k at hc hp2
      have hk1 : 0 < k := by
        rw [← hk]
        exact lt_min hn1 (by omega)
      have hk2 : k ≤ count - gathered := by
        rw [← hk]
        exact min_le_left _ _
      have hg : toDWORD ((gathered : Int) + (k : Int)) = gathered + k := by
        rw [← Nat.cast_add, toDWORD_natCast _ (by omega)]
      have hlen2 : (Slotter.pending s2).length = (Slotter.pending s).length - k := by
        rw [hp2, hp1, List.length_drop]
      obtain ⟨s', hg', hwf', hp', hd'⟩ :=
        ih s2 (gathered + k) count (out ++ (Slotter.pending s1).take k) hwf2 (by omega) hcount
          (by omega) (by omega) (by omega)
      refine ⟨s', ?_, hwf', ?_, ?_⟩
      · rw [Slotter.gather, if_pos hlt, hu]
        simp only [hreq, hc, hg]
        rw [hg', hp2, hp1, List.append_assoc]
        congr 2
        have hsplit : count - gathered = k + (count - (gathered + k)) := by omega
        conv_rhs => rw [hsplit, List.take_add]
      · rw [hp', hp2, hp1, List.drop_drop]
        congr 1
        omega
      · rw [hd', hd2, hd1]
    · have h0 : count - gathered = 0 := by omega
      refine ⟨s, ?_, hwf, ?_, rfl⟩
      · rw [Slotter.gather, if_neg hlt, h0]
        simp
      · rw [h0]
        simp

/-! ### Representation invariant -/

theorem Slotter.wf_create (L : Nat) : Slotter.WF L (Slotter.create (L : Int)) := by
  refine ⟨rfl, le_refl _, ?_, ?_, ?_, ?_⟩
  · show (0 : Int) ≤ (L : Int)
    omega
  · intro _
    rfl
  · intro hc
    exact absurd hc (lt_irrefl _)
  · intro b hb
    exact absurd hb (List.not_mem_nil _)

theorem Slotter.inv_create (L : Nat) : Slotter.Inv L (Slotter.create (L : Int)) :=
  ⟨Slotter.wf_create L, by simp [Slotter.create, Slotter.pending]⟩

theorem Slotter.pending_doPush (s : Slotter) (block : List BYTE) :
    Slotter.pending (Slotter.doPush s (some block)) = Slotter.pending s ++ block := by
  simp [Slotter.doPush, Slotter.pending]

theorem Slotter.inv_doPush (L : Nat) (s : Slotter) (data : Option (List BYTE))
    (h : Slotter.Inv L s) (hd : ∀ block, data = some block → block.length = L) :
    Slotter.Inv L (Slotter.doPush s data) := by
  cases data with
  | none => exact h
  | some block =>
    have hbl : block.length = L := hd block rfl
    obtain ⟨⟨hlen, h0, hle, hnone, hsome, hslots⟩, hav⟩ := h
    refine ⟨⟨hlen, h0, hle, hnone, hsome, ?_⟩, ?_⟩
    · intro b hb
      have hb' : b ∈ s.slots ++ [block] := hb
      rcases List.mem_append.mp hb' with h1 | h1
      · exact hslots b h1
      · rw [List.mem_singleton.mp h1]
        exact hbl
    · rw [Slotter.pending_doPush, List.length_append, hbl]
      show toDWORD ((s.dwAvailable : Int) + s.slice_length) = _
      rw [hlen, hav]
      unfold toDWORD DWORD_MOD
      omega


/-! ### Loop budget -/

theorem Slotter.gather_succ_fuel :
    ∀ (fuel : Nat) (s : Slotter) (gathered count : Nat) (out : List BYTE)
      (r : Slotter × List BYTE),
      Slotter.gather fuel s gathered count out = Except.ok r →
      Slotter.gather (fuel + 1) s gathered count out = Except.ok r := by
  intro fuel
  induction fuel with
  | zero =>
    intro s gathered count out r h
    rw [Slotter.gather] at h
    rw [Slotter.gather]
    by_cases hlt : gathered < count
    · rw [if_pos hlt] at h
      cases h
    · rw [if_neg hlt] at h
      rw [if_neg hlt]
      exact h
  | succ fuel ih =>
    intro s gathered count out r h
    rw [Slotter.gather] at h
    rw [Slotter.gather]
    by_cases hlt : gathered < count
    · rw [if_pos hlt] at h
      rw [if_pos hlt]
      cases hu : Slotter.updateSlice s with
      | error e =>
        rw [hu] at h
        cases h
      | ok s1 =>
        rw [hu] at h
        simp only [] at h ⊢
        cases hc : Slotter.copyFromSlice s1 (toInt (dwSub count gathered)) with
        | error e =>
          rw [hc] at h
          cases h
        | ok res =>
          obtain ⟨inc, s2, bytes⟩ := res
          rw [hc] at h
          simp only [] at h ⊢
          exact ih _ _ _ _ _ h
    · rw [if_neg hlt] at h
      rw [if_neg hlt]
      exact h

theorem Slotter.gather_more_fuel (fuel extra : Nat) (s : Slotter) (gathered count : Nat)
    (out : List BYTE) (r : Slotter × List BYTE)
    (h : Slotter.gather fuel s gathered count out = Except.ok r) :
    Slotter.gather (fuel + extra) s gathered count out = Except.ok r := by
  induction extra with
  | zero => exact h
  | succ k ih => exact Slotter.gather_succ_fuel _ _ _ _ _ _ ih

theorem Slotter.copyFromSlice_negative (L : Nat) (s : Slotter) (required : Int)
    (h : Slotter.WF L s) (hpos : 0 < s.slice_avail) (hneg : required < 0) :
    Slotter.copyFromSlice s required = Except.error Fault.memory := by
  obtain ⟨_, _, _, _, hsome, _⟩ := h
  obtain ⟨block, hb, _⟩ := hsome hpos
  have ht : (if required < s.slice_avail then required else s.slice_avail) = required :=
    if_pos (by omega)
  unfold Slotter.copyFromSlice
  simp only [ht, hpos, if_true, hb]
  rw [if_neg (fun hc => absurd hc.1 (by omega))]

theorem Slotter.gather_large_faults (L : Nat) (hL : 0 < L) (fuel : Nat) (s : Slotter)
    (count : Nat) (out : List BYTE) (h : Slotter.WF L s) (hbig : INT_LIMIT ≤ count)
    (hcount : count < DWORD_MOD) (hpend : count ≤ (Slotter.pending s).length) :
    ∃ e, Slotter.gather fuel s 0 count out = Except.error e := by
  have hlt : 0 < count := by unfold INT_LIMIT at hbig; omega
  cases fuel with
  | zero =>
    refine ⟨Fault.fuel, ?_⟩
    simp only [Slotter.gather, if_pos hlt]
  | succ fuel =>
    obtain ⟨s1, hu, hwf1, _, hpos1, _⟩ := Slotter.updateSlice_spec L s hL h (by omega)
    refine ⟨Fault.memory, ?_⟩
    simp only [Slotter.gather, if_pos hlt, hu]
    have hreq : toInt (dwSub count 0) < 0 := by
      rw [dwSub_of_le count 0 (Nat.zero_le _) hcount]
      exact toInt_neg_of_ge _ hbig hcount
    rw [Slotter.copyFromSlice_negative L s1 _ hwf1 hpos1 hreq]


/-! ### One request -/

theorem Slotter.doRequest_total (L : Nat) (hL : 0 < L) (fuel : Nat) (s : Slotter) (count : Nat)
    (h : Slotter.Inv L s) (hav : count ≤ s.dwAvailable) (hint : count < INT_LIMIT)
    (hfuel : count ≤ fuel) :
    ∃ s', Slotter.doRequest fuel s true count
        = Except.ok (true, s', (Slotter.pending s).take count) ∧
      Slotter.Inv L s' ∧
      Slotter.pending s' = (Slotter.pending s).drop count ∧
      s'.dwAvailable = s.dwAvailable - count := by
  obtain ⟨hwf, hcache⟩ := h
  have hmod : (Slotter.pending s).length % DWORD_MOD ≤ (Slotter.pending s).length :=
    Nat.mod_le _ _
  have hcount : count < DWORD_MOD := by unfold INT_LIMIT at hint; unfold DWORD_MOD; omega
  obtain ⟨s1, hg, hwf1, hp1, hd1⟩ :=
    Slotter.gather_spec L hL fuel s 0 count [] hwf (Nat.zero_le _) hcount
      (by omega) (by omega) (by omega)
  have hsub : dwSub s1.dwAvailable count = s.dwAvailable - count := by
    rw [hd1, dwSub_of_le _ _ hav (by rw [hcache]; exact Nat.mod_lt _ (by decide))]
  refine ⟨{ s1 with dwAvailable := dwSub s1.dwAvailable count }, ?_, ⟨hwf1, ?_⟩, hp1, hsub⟩
  · unfold Slotter.doRequest
    rw [if_neg (by omega), if_pos rfl, hg]
    simp
  · show dwSub s1.dwAvailable count = (Slotter.pending s1).length % DWORD_MOD
    rw [hsub, hp1, List.length_drop, hcache]
    unfold DWORD_MOD at *
    omega

theorem Slotter.doRequest_sound (L : Nat) (hL : 0 < L) (fuel : Nat) (s : Slotter)
    (buffer : Bool) (count : Nat) (ret : Bool) (s' : Slotter) (out : List BYTE)
    (h : Slotter.Inv L s) (hcount : count < DWORD_MOD)
    (hr : Slotter.doRequest fuel s buffer count = Except.ok (ret, s', out)) :
    ret = decide (count ≤ s.dwAvailable) ∧ Slotter.Inv L s' ∧
      out ++ Slotter.pending s' = Slotter.pending s ∧
      out.length = (if (ret && buffer) = true then count else 0) ∧
      s'.dwAvailable = (if (ret && buffer) = true then s.dwAvailable - count else s.dwAvailable) ∧
      ((ret && buffer) = false → s' = s) := by
  unfold Slotter.doRequest at hr
  by_cases hgt : count > s.dwAvailable
  · rw [if_pos hgt] at hr
    injection hr with hr
    injection hr with h1 h2
    injection h2 with h2 h3
    subst h1 h2 h3
    refine ⟨?_, h, rfl, rfl, rfl, fun _ => rfl⟩
    simp
    omega
  · rw [if_neg hgt] at hr
    cases buffer with
    | false =>
      rw [if_neg (by simp)] at hr
      injection hr with hr
      injection hr with h1 h2
      injection h2 with h2 h3
      subst h1 h2 h3
      refine ⟨?_, h, rfl, rfl, rfl, fun _ => rfl⟩
      simp
      omega
    | true =>
      rw [if_pos rfl] at hr
      have hav : count ≤ s.dwAvailable := by omega
      have hmod : (Slotter.pending s).length % DWORD_MOD ≤ (Slotter.pending s).length :=
        Nat.mod_le _ _
      have hpend : count ≤ (Slotter.pending s).length := by rw [h.2] at hav; omega
      by_cases hint : count < INT_LIMIT
      · obtain ⟨s2, ht, hinv2, hp2, hd2⟩ :=
          Slotter.doRequest_total L hL (max fuel count) s count h hav hint (le_max_right _ _)
        cases hg : Slotter.gather fuel s 0 count [] with
        | error e =>
          rw [hg] at hr
          cases hr
        | ok res =>
          have hg2 := Slotter.gather_more_fuel fuel (max fuel count - fuel) s 0 count [] res hg
          rw [Nat.add_sub_cancel' (le_max_left _ _)] at hg2
          unfold Slotter.doRequest at ht
          rw [if_neg hgt, if_pos rfl, hg2] at ht
          rw [hg] at hr
          rw [hr] at ht
          injection ht with ht
          injection ht with h1 h2
          injection h2 with h2 h3
          subst h1 h2 h3
          refine ⟨?_, hinv2, ?_, ?_, ?_, ?_⟩
          · simp
            omega
          · rw [hp2, List.take_append_drop]
          · simp
            omega
          · simpa using hd2
          · intro hc
            simp at hc
      · obtain ⟨e, he⟩ := Slotter.gather_large_faults L hL fuel s count [] h.1
          (by omega) hcount hpend
        rw [he] at hr
        cases hr

theorem Slotter.reachable_inv (L : Nat) (hL : 0 < L) (s : Slotter)
    (h : Slotter.Reachable L s) : Slotter.Inv L s := by
  induction h with
  | start => exact Slotter.inv_create L
  | push s data _ hd ih => exact Slotter.inv_doPush L s data ih hd
  | request s fuel buffer count ret s' out _ hcount hr ih =>
    exact (Slotter.doRequest_sound L hL fuel s buffer count ret s' out ih hcount hr).2.1


/-! ### Slotter: states of the extreme slice length -/

theorem Slotter.maxBlock_length : Slotter.maxBlock.length = 2147483647 := by
  unfold Slotter.maxBlock
  exact List.length_replicate _ _

theorem Slotter.maxFilled_reachable (count : Nat) :
    Slotter.Reachable 2147483647 (Slotter.maxFilled count) := by
  induction count with
  | zero => exact Slotter.Reachable.start
  | succ k ih =>
    refine Slotter.Reachable.push _ _ ih ?_
    intro block hb
    injection hb with hb
    rw [← hb]
    exact Slotter.maxBlock_length

theorem Slotter.maxFilled_two_available : (Slotter.maxFilled 2).dwAvailable = 4294967294 := by
  simp [Slotter.maxFilled, Slotter.push, Slotter.doPush, Slotter.create, toDWORD]

theorem Slotter.maxFilled_three :
    (Slotter.maxFilled 3).dwAvailable = 2147483645 ∧ (Slotter.maxFilled 3).slots.length = 3 ∧
      (Slotter.maxFilled 3).slice_avail = 0 := by
  simp [Slotter.maxFilled, Slotter.push, Slotter.doPush, Slotter.create, toDWORD]

theorem Slotter.request_large_faults (L : Nat) (hL : 0 < L) (fuel : Nat) (s : Slotter)
    (count : Nat) (h : Slotter.Reachable L s) (hav : count ≤ s.dwAvailable)
    (hbig : INT_LIMIT ≤ count) :
    ∃ e, Slotter.request fuel s true count = Except.error e := by
  have hinv := Slotter.reachable_inv L hL s h
  have hlt : s.dwAvailable < DWORD_MOD := by
    rw [hinv.2]
    exact Nat.mod_lt _ (by decide)
  have hmod : (Slotter.pending s).length % DWORD_MOD ≤ (Slotter.pending s).length :=
    Nat.mod_le _ _
  obtain ⟨e, he⟩ := Slotter.gather_large_faults L hL fuel s count [] hinv.1 hbig
    (by omega) (by rw [hinv.2] at hav; omega)
  refine ⟨e, ?_⟩
  unfold Slotter.request Slotter.doRequest
  rw [if_neg (by omega), if_pos rfl, he]


/-! ### Slotter: refused requests, the cached counter, successful withdrawals -/

theorem Slotter.request_beyond_available_unchanged_aux (fuel : Nat) (s : Slotter)
    (buffer : Bool) (count : Nat) (h : s.dwAvailable < count) :
    Slotter.request fuel s buffer count = Except.ok (false, s, []) := by
  have h' : count > s.dwAvailable := h
  unfold Slotter.request Slotter.doRequest
  rw [if_pos h']

/-- C2 (request atomicity): in every Slotter state, a request for more bytes
than `available()` reports returns `false`, leaves the whole object (counter,
queue, partial slice, remaining-byte count) as it was and writes no byte to the
destination, for a null and for a non-null destination and whatever the loop
budget. -/
theorem Slotter.request_beyond_available_unchanged (fuel : Nat) (s : Slotter) (buffer : Bool)
    (count : Nat) (h : Slotter.available s < count) :
    Slotter.request fuel s buffer count = Except.ok (false, s, []) :=
  Slotter.request_beyond_available_unchanged_aux fuel s buffer count h

/-- Witness for C2: one slice of 20 bytes is held and 21 = available + 1 bytes are requested. -/
theorem Slotter.request_beyond_available_unchanged_witness :
    Slotter.available Slotter.oneSlice = 20 ∧
      Slotter.request 0 Slotter.oneSlice true (Slotter.available Slotter.oneSlice + 1)
        = Except.ok (false, Slotter.oneSlice, []) :=
  ⟨by decide,
   Slotter.request_beyond_available_unchanged 0 Slotter.oneSlice true
     (Slotter.available Slotter.oneSlice + 1) (Nat.lt_succ_self _)⟩

/-- C3, refuted as stated: with slice length `2^31 - 1`, three pushes of a
block of that length leave three whole slices in the queue and no partial
slice, yet the `DWORD` counter has wrapped: `available()` is `2^31 - 3`, which
is not `3 * (2^31 - 1) + 0`. -/
theorem Slotter.available_wraps_after_three_pushes :
    Slotter.Reachable 2147483647 (Slotter.maxFilled 3) ∧
      (Slotter.maxFilled 3).slice = none ∧
      Slotter.available (Slotter.maxFilled 3) = 2147483645 ∧
      (Slotter.available (Slotter.maxFilled 3) : Int)
        ≠ ((Slotter.maxFilled 3).slots.length : Int) * 2147483647
            + (Slotter.maxFilled 3).slice_avail := by
  obtain ⟨h1, h2, h3⟩ := Slotter.maxFilled_three
  refine ⟨Slotter.maxFilled_reachable 3, rfl, h1, ?_⟩
  show ((Slotter.maxFilled 3).dwAvailable : Int) ≠ _
  rw [h1, h2, h3]
  decide

/-- C3 (availability invariant, amended): in every state reachable from the
constructor call with slice length `L > 0`, the partial slice has a remaining
count of 0 when it is absent, and the cached counter `available()` equals
`(slices in the queue) * L + (bytes remaining in the partial slice)` reduced
modulo `2^32`; it equals that sum itself whenever the sum is below `2^32`. -/
theorem Slotter.available_eq_derived_mod (L : Nat) (s : Slotter) (hL : 0 < L)
    (h : Slotter.Reachable L s) :
    (s.slice = none → s.slice_avail = 0) ∧
      (Slotter.available s : Int)
        = ((s.slots.length : Int) * (L : Int) + s.slice_avail) % 4294967296 ∧
      ((s.slots.length : Int) * (L : Int) + s.slice_avail < 4294967296 →
        (Slotter.available s : Int) = (s.slots.length : Int) * (L : Int) + s.slice_avail) := by
  obtain ⟨hwf, hcache⟩ := Slotter.reachable_inv L hL s h
  have hlen := Slotter.pending_length L s hwf
  obtain ⟨_, h0, _, _, hsome, _⟩ := hwf
  have hq : (0 : Int) ≤ (s.slots.length : Int) * (L : Int) :=
    mul_nonneg (Int.ofNat_nonneg _) (Int.ofNat_nonneg _)
  have hmod : (Slotter.available s : Int)
      = ((s.slots.length : Int) * (L : Int) + s.slice_avail) % 4294967296 := by
    show (s.dwAvailable : Int) = _
    rw [← hlen, hcache]
    rfl
  refine ⟨?_, hmod, ?_⟩
  · intro hn
    rcases lt_or_ge 0 s.slice_avail with hpos | hle
    · obtain ⟨block, hb, _⟩ := hsome hpos
      rw [hn] at hb
      cases hb
    · omega
  · intro hlt
    rw [hmod]
    exact Int.emod_eq_of_lt (by omega) hlt

/-- Witness for C3: one pushed slice of 20 bytes, `available()` = 20 = 1 * 20 + 0. -/
theorem Slotter.available_eq_derived_mod_witness :
    Slotter.Reachable 20 Slotter.oneSlice ∧
      (Slotter.available Slotter.oneSlice : Int)
        = (Slotter.oneSlice.slots.length : Int) * ((20 : Nat) : Int)
            + Slotter.oneSlice.slice_avail :=
  have hr : Slotter.Reachable 20 Slotter.oneSlice :=
    Slotter.Reachable.push _ _ Slotter.Reachable.start
      (fun block hb => by injection hb with hb; rw [← hb]; rfl)
  ⟨hr, (Slotter.available_eq_derived_mod 20 Slotter.oneSlice (by decide) hr).2.2 (by decide)⟩

/-- C4, refuted as stated: (a) with 20 bytes held, `request(NULL, 5)` returns
`true` and the object, its counter included, is unchanged, so `available()` is
still 20 and not 20 - 5; (b) with `2^32 - 2` bytes held (two slices of
`2^31 - 1` bytes), `request(dst, 2^31)` has `count <= available` and does not
return at all: the count turns negative as the `int` argument of
`copyFromSlice`. -/
theorem Slotter.successful_request_counterexample :
    (Slotter.Reachable 20 Slotter.oneSlice ∧ 5 ≤ Slotter.available Slotter.oneSlice ∧
      Slotter.request 5 Slotter.oneSlice false 5 = Except.ok (true, Slotter.oneSlice, []) ∧
      Slotter.available Slotter.oneSlice ≠ Slotter.available Slotter.oneSlice - 5) ∧
    (Slotter.Reachable 2147483647 (Slotter.maxFilled 2) ∧
      2147483648 ≤ Slotter.available (Slotter.maxFilled 2) ∧
      ¬ ∃ fuel r, Slotter.request fuel (Slotter.maxFilled 2) true 2147483648 = Except.ok r) := by
  refine ⟨⟨?_, by decide, rfl, by decide⟩, Slotter.maxFilled_reachable 2, ?_, ?_⟩
  · exact Slotter.Reachable.push _ _ Slotter.Reachable.start
      (fun block hb => by injection hb with hb; rw [← hb]; rfl)
  · show 2147483648 ≤ (Slotter.maxFilled 2).dwAvailable
    rw [Slotter.maxFilled_two_available]
    decide
  · rintro ⟨fuel, r, hr⟩
    obtain ⟨e, he⟩ := Slotter.request_large_faults 2147483647 (by decide) fuel
      (Slotter.maxFilled 2) 2147483648 (Slotter.maxFilled_reachable 2)
      (by rw [Slotter.maxFilled_two_available]; decide) (le_refl _)
    rw [he] at hr
    cases hr

/-- C4 (successful withdrawal, amended): in every reachable state and for
every `count <= available`, a request with a non-null destination and
`count < 2^31` returns `true` once the loop budget is at least `count`, writes
`count` bytes and leaves `available()` at its previous value minus `count`; a
request with a null destination returns `true` and leaves the object, its
counter included, unchanged. -/
theorem Slotter.request_success_available (L : Nat) (s : Slotter) (count fuel : Nat)
    (hL : 0 < L) (hr : Slotter.Reachable L s) (hav : count ≤ Slotter.available s) :
    (count < INT_LIMIT → count ≤ fuel →
      ∃ s' out, Slotter.request fuel s true count = Except.ok (true, s', out) ∧
        out.length = count ∧ Slotter.available s' = Slotter.available s - count) ∧
    Slotter.request fuel s false count = Except.ok (true, s, []) := by
  have hinv := Slotter.reachable_inv L hL s hr
  have hav' : count ≤ s.dwAvailable := hav
  constructor
  · intro hint hfuel
    obtain ⟨s', ht, _, _, hd⟩ := Slotter.doRequest_total L hL fuel s count hinv hav' hint hfuel
    refine ⟨s', _, ht, ?_, hd⟩
    have hmod : (Slotter.pending s).length % DWORD_MOD ≤ (Slotter.pending s).length :=
      Nat.mod_le _ _
    rw [List.length_take, min_eq_left]
    rw [hinv.2] at hav'
    omega
  · unfold Slotter.request Slotter.doRequest
    rw [if_neg (by omega), if_neg (by simp)]

/-- Witness for C4: 20 bytes held, 5 requested. -/
theorem Slotter.request_success_available_witness :
    (∃ s' out, Slotter.request 5 Slotter.oneSlice true 5 = Except.ok (true, s', out) ∧
        out.length = 5 ∧ Slotter.available s' = Slotter.available Slotter.oneSlice - 5) ∧
      Slotter.request 5 Slotter.oneSlice false 5 = Except.ok (true, Slotter.oneSlice, []) :=
  have h := Slotter.request_success_available 20 Slotter.oneSlice 5 5 (by decide)
    (Slotter.Reachable.push _ _ Slotter.Reachable.start
      (fun block hb => by injection hb with hb; rw [← hb]; rfl))
    (by decide)
  ⟨h.1 (by decide) (le_refl _), h.2⟩

/-! ### Slotter: draining byte by byte -/

theorem Slotter.drainBytes_spec (L : Nat) (hL : 0 < L) (fuel : Nat) (hfuel : 1 ≤ fuel) :
    ∀ (c : Nat) (s : Slotter), Slotter.Inv L s → c ≤ s.dwAvailable →
      ∃ s', Slotter.drainBytes fuel c s
          = Except.ok (s', (Slotter.pending s).take c, true) ∧
        Slotter.Inv L s' ∧ Slotter.pending s' = (Slotter.pending s).drop c ∧
        s'.dwAvailable = s.dwAvailable - c := by
  intro c
  induction c with
  | zero =>
    intro s hinv _
    exact ⟨s, by simp [Slotter.drainBytes], hinv, by simp, by simp⟩
  | succ c ih =>
    intro s hinv hav
    obtain ⟨s1, h1, hinv1, hp1, hd1⟩ :=
      Slotter.doRequest_total L hL fuel s 1 hinv (by omega) (by decide) hfuel
    obtain ⟨s2, h2, hinv2, hp2, hd2⟩ := ih s1 hinv1 (by omega)
    refine ⟨s2, ?_, hinv2, ?_, by omega⟩
    · rw [Slotter.drainBytes]
      unfold Slotter.request
      rw [h1]
      simp only [h2, hp1, Bool.and_self]
      rw [Nat.add_comm c 1, List.take_add]
    · rw [hp2, hp1, List.drop_drop]
      congr 1
      omega


/-- C10, refuted as stated: with `2^32 - 2` bytes held (two slices of
`2^31 - 1` bytes) and `c = 3000000000 <= available`, the `c` one-byte requests
all return `true` and yield `c` bytes, while the single request of `c` bytes
never returns, whatever the loop budget. -/
theorem Slotter.single_request_faults_where_bytewise_drain_succeeds :
    Slotter.Reachable 2147483647 (Slotter.maxFilled 2) ∧
      3000000000 ≤ Slotter.available (Slotter.maxFilled 2) ∧
      (∃ s' out, Slotter.drainBytes 1 3000000000 (Slotter.maxFilled 2)
          = Except.ok (s', out, true) ∧ out.length = 3000000000) ∧
      ¬ ∃ fuel r, Slotter.request fuel (Slotter.maxFilled 2) true 3000000000 = Except.ok r := by
  have hreach := Slotter.maxFilled_reachable 2
  have hinv := Slotter.reachable_inv 2147483647 (by decide) _ hreach
  have hav : 3000000000 ≤ (Slotter.maxFilled 2).dwAvailable := by
    rw [Slotter.maxFilled_two_available]
    decide
  refine ⟨hreach, hav, ?_, ?_⟩
  · obtain ⟨s', hd, _, _, _⟩ :=
      Slotter.drainBytes_spec 2147483647 (by decide) 1 (le_refl _) 3000000000 _ hinv hav
    refine ⟨s', _, hd, ?_⟩
    have hmod : (Slotter.pending (Slotter.maxFilled 2)).length % DWORD_MOD
        ≤ (Slotter.pending (Slotter.maxFilled 2)).length := Nat.mod_le _ _
    rw [List.length_take, min_eq_left]
    rw [hinv.2] at hav
    omega
  · rintro ⟨fuel, r, hr⟩
    obtain ⟨e, he⟩ := Slotter.request_large_faults 2147483647 (by decide) fuel
      (Slotter.maxFilled 2) 3000000000 hreach hav (by decide)
    rw [he] at hr
    cases hr

/-- C10 (idempotent draining, amended): in every reachable state and for
every `c <= available` with `c < 2^31`, the single request of `c` bytes (loop
budget at least `c`) and the `c` successive one-byte requests (loop budget at
least 1) all return `true` and yield the same `c` bytes in the same order; the
two final states hold the same pending bytes and report the same
`available()`. -/
theorem Slotter.bytewise_drain_eq_single_request (L : Nat) (s : Slotter) (c fuel fuel1 : Nat)
    (hL : 0 < L) (hr : Slotter.Reachable L s) (hav : c ≤ Slotter.available s)
    (hint : c < INT_LIMIT) (hfuel : c ≤ fuel) (hfuel1 : 1 ≤ fuel1) :
    ∃ s1 s2 out, Slotter.request fuel s true c = Except.ok (true, s1, out) ∧
      Slotter.drainBytes fuel1 c s = Except.ok (s2, out, true) ∧
      out.length = c ∧ Slotter.pending s1 = Slotter.pending s2 ∧
      Slotter.available s1 = Slotter.available s2 := by
  have hinv := Slotter.reachable_inv L hL s hr
  have hav' : c ≤ s.dwAvailable := hav
  obtain ⟨s1, h1, _, hp1, hd1⟩ := Slotter.doRequest_total L hL fuel s c hinv hav' hint hfuel
  obtain ⟨s2, h2, _, hp2, hd2⟩ := Slotter.drainBytes_spec L hL fuel1 hfuel1 c s hinv hav'
  refine ⟨s1, s2, _, h1, h2, ?_, by rw [hp1, hp2], ?_⟩
  · have hmod : (Slotter.pending s).length % DWORD_MOD ≤ (Slotter.pending s).length :=
      Nat.mod_le _ _
    rw [List.length_take, min_eq_left]
    rw [hinv.2] at hav'
    omega
  · show s1.dwAvailable = s2.dwAvailable
    rw [hd1, hd2]

/-- Witness for C10: 20 bytes held, 7 drained either way. -/
theorem Slotter.bytewise_drain_eq_single_request_witness :
    ∃ s1 s2 out, Slotter.request 7 Slotter.oneSlice true 7 = Except.ok (true, s1, out) ∧
      Slotter.drainBytes 1 7 Slotter.oneSlice = Except.ok (s2, out, true) ∧
      out.length = 7 ∧ Slotter.pending s1 = Slotter.pending s2 ∧
      Slotter.available s1 = Slotter.available s2 :=
  Slotter.bytewise_drain_eq_single_request 20 Slotter.oneSlice 7 7 1 (by decide)
    (Slotter.Reachable.push _ _ Slotter.Reachable.start
      (fun block hb => by injection hb with hb; rw [← hb]; rfl))
    (by decide) (by decide) (le_refl _) (le_refl _)


/-! ### Slotter: sequences of calls -/

theorem Slotter.opsOK_tail (L : Nat) (op : Slotter.Op) (ops : List Slotter.Op)
    (h : Slotter.OpsOK L (op :: ops)) : Slotter.OpsOK L ops :=
  fun x hx => h x (List.mem_cons_of_mem _ hx)

theorem Slotter.opsOK_push (L : Nat) (data : Option (List BYTE)) (ops : List Slotter.Op)
    (h : Slotter.OpsOK L (Slotter.Op.push data :: ops)) :
    ∃ block, data = some block ∧ block.length = L :=
  h (Slotter.Op.push data) (List.mem_cons_self _ _)

theorem Slotter.opsOK_request (L : Nat) (buffer : Bool) (count : Nat) (ops : List Slotter.Op)
    (h : Slotter.OpsOK L (Slotter.Op.request buffer count :: ops)) :
    buffer = true ∧ count < DWORD_MOD :=
  h (Slotter.Op.request buffer count) (List.mem_cons_self _ _)

theorem Slotter.run_sound (L : Nat) (hL : 0 < L) (fuel : Nat) :
    ∀ (ops : List Slotter.Op) (s sf : Slotter) (log : List Slotter.Served),
      Slotter.Inv L s → Slotter.OpsOK L ops →
      Slotter.run fuel s ops = Except.ok (sf, log) →
      Slotter.Inv L sf ∧
        Slotter.writtenBytes log ++ Slotter.pending sf
          = Slotter.pending s ++ Slotter.pushedBytes ops ∧
        (∀ e ∈ log, e.ret = true → e.bytes.length = e.count) ∧
        (Slotter.writtenBytes log).length = Slotter.servedCount log := by
  intro ops
  induction ops with
  | nil =>
    intro s sf log hinv _ hrun
    rw [Slotter.run] at hrun
    injection hrun with hrun
    injection hrun with h1 h2
    subst h1 h2
    refine ⟨hinv, by simp [Slotter.writtenBytes, Slotter.pushedBytes], ?_, rfl⟩
    intro e he
    exact absurd he (List.not_mem_nil _)
  | cons op ops ih =>
    intro s sf log hinv hops hrun
    have htail := Slotter.opsOK_tail L op ops hops
    cases op with
    | push data =>
      obtain ⟨block, hdata, hbl⟩ := Slotter.opsOK_push L data ops hops
      subst hdata
      rw [Slotter.run] at hrun
      have hinv1 : Slotter.Inv L (Slotter.push s (some block)) :=
        Slotter.inv_doPush L s (some block) hinv
          (fun b hb => by injection hb with hb; rw [← hb]; exact hbl)
      obtain ⟨hi, hw, hl, hc⟩ := ih _ sf log hinv1 htail hrun
      refine ⟨hi, ?_, hl, hc⟩
      rw [hw]
      show Slotter.pending (Slotter.doPush s (some block)) ++ _ = _
      rw [Slotter.pending_doPush, List.append_assoc]
      rfl
    | request buffer count =>
      obtain ⟨hbuf, hcount⟩ := Slotter.opsOK_request L buffer count ops hops
      subst hbuf
      rw [Slotter.run] at hrun
      cases hreq : Slotter.request fuel s true count with
      | error e =>
        rw [hreq] at hrun
        cases hrun
      | ok res =>
        obtain ⟨ret, s1, out⟩ := res
        rw [hreq] at hrun
        simp only [] at hrun
        cases hrest : Slotter.run fuel s1 ops with
        | error e =>
          rw [hrest] at hrun
          cases hrun
        | ok res2 =>
          obtain ⟨sf2, log2⟩ := res2
          rw [hrest] at hrun
          simp only [] at hrun
          injection hrun with hrun
          injection hrun with h1 h2
          subst h1 h2
          obtain ⟨_, hinv1, happ, hlen, _, hsame⟩ :=
            Slotter.doRequest_sound L hL fuel s true count ret s1 out hinv hcount hreq
          obtain ⟨hi, hw, hl, hc⟩ := ih s1 sf2 log2 hinv1 htail hrest
          refine ⟨hi, ?_, ?_, ?_⟩
          · show Slotter.writtenBytes (_ :: log2) ++ _ = _ ++ Slotter.pushedBytes ops
            rw [← happ]
            cases ret with
            | true =>
              simp only [Slotter.writtenBytes, if_true, List.append_assoc]
              rw [hw]
            | false =>
              have hs : s1 = s := hsame rfl
              have ho : out = [] := by
                apply List.eq_nil_of_length_eq_zero
                simpa using hlen
              simp only [Slotter.writtenBytes, Bool.false_eq_true, if_false]
              rw [hw, ho]
              rfl
          · intro e he hret
            rcases List.mem_cons.mp he with h1 | h1
            · subst h1
              have hret' : ret = true := hret
              subst hret'
              simpa using hlen
            · exact hl e h1 hret
          · cases ret with
            | true =>
              simp only [Slotter.writtenBytes, Slotter.servedCount, if_true, List.length_append]
              rw [hc]
              have : out.length = count := by simpa using hlen
              omega
            | false =>
              simp only [Slotter.writtenBytes, Slotter.servedCount, Bool.false_eq_true, if_false]
              exact hc

theorem Slotter.run_total (L : Nat) (hL : 0 < L) (fuel : Nat) :
    ∀ (ops : List Slotter.Op) (s : Slotter),
      Slotter.Inv L s → Slotter.OpsOK L ops →
      (∀ buffer count, Slotter.Op.request buffer count ∈ ops →
        count < INT_LIMIT ∧ count ≤ fuel) →
      ∃ sf log, Slotter.run fuel s ops = Except.ok (sf, log) := by
  intro ops
  induction ops with
  | nil =>
    intro s _ _ _
    exact ⟨s, [], rfl⟩
  | cons op ops ih =>
    intro s hinv hops hsmall
    have htail := Slotter.opsOK_tail L op ops hops
    have hsmall' : ∀ buffer count, Slotter.Op.request buffer count ∈ ops →
        count < INT_LIMIT ∧ count ≤ fuel :=
      fun b c hm => hsmall b c (List.mem_cons_of_mem _ hm)
    cases op with
    | push data =>
      obtain ⟨block, hdata, hbl⟩ := Slotter.opsOK_push L data ops hops
      subst hdata
      have hinv1 : Slotter.Inv L (Slotter.push s (some block)) :=
        Slotter.inv_doPush L s (some block) hinv
          (fun b hb => by injection hb with hb; rw [← hb]; exact hbl)
      obtain ⟨sf, log, hrun⟩ := ih _ hinv1 htail hsmall'
      exact ⟨sf, log, by rw [Slotter.run]; exact hrun⟩
    | request buffer count =>
      obtain ⟨hbuf, hcount⟩ := Slotter.opsOK_request L buffer count ops hops
      subst hbuf
      obtain ⟨hint, hfuel⟩ := hsmall true count (List.mem_cons_self _ _)
      have hreq : ∃ ret s1 out, Slotter.request fuel s true count = Except.ok (ret, s1, out) := by
        by_cases hav : count ≤ s.dwAvailable
        · obtain ⟨s1, h1, _⟩ := Slotter.doRequest_total L hL fuel s count hinv hav hint hfuel
          exact ⟨true, s1, _, h1⟩
        · exact ⟨false, s, [],
            Slotter.request_beyond_available_unchanged_aux fuel s true count (by omega)⟩
      obtain ⟨ret, s1, out, hreq⟩ := hreq
      have hinv1 : Slotter.Inv L s1 :=
        (Slotter.doRequest_sound L hL fuel s true count ret s1 out hinv hcount hreq).2.1
      obtain ⟨sf, log, hrun⟩ := ih s1 hinv1 htail hsmall'
      refine ⟨sf, { count := count, ret := ret, bytes := out } :: log, ?_⟩
      rw [Slotter.run, hreq]
      simp only [hrun]


theorem Slotter.pushAll_spec (L : Nat) :
    ∀ (slices : List (List BYTE)) (s : Slotter), Slotter.Inv L s →
      (∀ block ∈ slices, block.length = L) →
      Slotter.Inv L (Slotter.pushAll s slices) ∧
        Slotter.pending (Slotter.pushAll s slices) = Slotter.pending s ++ slices.flatten := by
  intro slices
  induction slices with
  | nil =>
    intro s hinv _
    exact ⟨hinv, by simp [Slotter.pushAll]⟩
  | cons block rest ih =>
    intro s hinv hall
    have hb : block.length = L := hall block (List.mem_cons_self _ _)
    have hinv1 : Slotter.Inv L (Slotter.push s (some block)) :=
      Slotter.inv_doPush L s (some block) hinv
        (fun b hb' => by injection hb' with hb'; rw [← hb']; exact hb)
    obtain ⟨hi, hp⟩ := ih (Slotter.push s (some block)) hinv1
      (fun b hm => hall b (List.mem_cons_of_mem _ hm))
    refine ⟨hi, ?_⟩
    show Slotter.pending (Slotter.pushAll (Slotter.push s (some block)) rest) = _
    rw [hp]
    show Slotter.pending (Slotter.doPush s (some block)) ++ _ = _
    rw [Slotter.pending_doPush]
    simp

/-- C1, refuted as stated: with slice length `L = 2^31 - 1`, pushing `N = 2`
slices of exactly `L` bytes and then requesting `N * L = 2^32 - 2` bytes does
not return the two slices: the request never returns, whatever the loop
budget. -/
theorem Slotter.round_trip_of_two_max_slices_faults :
    Slotter.maxBlock.length = 2147483647 ∧
      ¬ ∃ fuel r, Slotter.request fuel
          (Slotter.pushAll (Slotter.create 2147483647) [Slotter.maxBlock, Slotter.maxBlock])
          true (2 * 2147483647) = Except.ok r := by
  refine ⟨Slotter.maxBlock_length, ?_⟩
  rintro ⟨fuel, r, hr⟩
  have hs : Slotter.pushAll (Slotter.create 2147483647) [Slotter.maxBlock, Slotter.maxBlock]
      = Slotter.maxFilled 2 := rfl
  rw [hs] at hr
  obtain ⟨e, he⟩ := Slotter.request_large_faults 2147483647 (by decide) fuel
    (Slotter.maxFilled 2) (2 * 2147483647) (Slotter.maxFilled_reachable 2)
    (by rw [Slotter.maxFilled_two_available]) (by decide)
  rw [he] at hr
  cases hr

/-- C1 (FIFO byte stream, amended): for every slice length `L > 0` and every
finite sequence of pushes of non-null `L`-byte slices and requests with a
non-null destination, applied to the freshly constructed Slotter:
(1) whenever the sequence runs to its end, each request that returned `true`
wrote exactly `count` bytes and the bytes written by those requests, in
request order, are the first (sum of their counts) bytes of the concatenation
of the pushed slices in push order;
(2) the sequence does run to its end when every requested count is below
`2^31` and within the loop budget;
(3) pushing `N` slices and then requesting `N * L` bytes, with
`N * L < 2^31`, returns `true` and the slices concatenated in push order. -/
theorem Slotter.fifo_byte_stream (L fuel : Nat) (ops : List Slotter.Op) (hL : 0 < L)
    (hops : Slotter.OpsOK L ops) :
    (∀ sf log, Slotter.run fuel (Slotter.create (L : Int)) ops = Except.ok (sf, log) →
      (∀ e ∈ log, e.ret = true → e.bytes.length = e.count) ∧
      Slotter.writtenBytes log
        = (Slotter.pushedBytes ops).take (Slotter.servedCount log)) ∧
    ((∀ buffer count, Slotter.Op.request buffer count ∈ ops →
        count < INT_LIMIT ∧ count ≤ fuel) →
      ∃ sf log, Slotter.run fuel (Slotter.create (L : Int)) ops = Except.ok (sf, log)) ∧
    (∀ slices : List (List BYTE), (∀ block ∈ slices, block.length = L) →
      slices.length * L < INT_LIMIT → slices.length * L ≤ fuel →
      ∃ s', Slotter.request fuel (Slotter.pushAll (Slotter.create (L : Int)) slices) true
          (slices.length * L) = Except.ok (true, s', slices.flatten)) := by
  refine ⟨?_, ?_, ?_⟩
  · intro sf log hrun
    obtain ⟨_, hw, hl, hc⟩ :=
      Slotter.run_sound L hL fuel ops _ sf log (Slotter.inv_create L) hops hrun
    refine ⟨hl, ?_⟩
    have hp : Slotter.pending (Slotter.create (L : Int)) = [] := by
      simp [Slotter.create, Slotter.pending]
    rw [hp, List.nil_append] at hw
    rw [← hw, ← hc, List.take_left]
  · intro hsmall
    exact Slotter.run_total L hL fuel ops _ (Slotter.inv_create L) hops hsmall
  · intro slices hall hint hfuel
    obtain ⟨hinv, hp⟩ := Slotter.pushAll_spec L slices _ (Slotter.inv_create L) hall
    have hp0 : Slotter.pending (Slotter.create (L : Int)) = [] := by
      simp [Slotter.create, Slotter.pending]
    rw [hp0, List.nil_append] at hp
    have hlen : slices.flatten.length = slices.length * L :=
      length_flatten_const L slices hall
    have hav : (Slotter.pushAll (Slotter.create (L : Int)) slices).dwAvailable
        = slices.length * L := by
      rw [hinv.2, hp, hlen]
      exact Nat.mod_eq_of_lt (by unfold INT_LIMIT at hint; unfold DWORD_MOD; omega)
    obtain ⟨s', ht, _⟩ := Slotter.doRequest_total L hL fuel _ (slices.length * L) hinv
      (by rw [hav]) hint hfuel
    refine ⟨s', ?_⟩
    unfold Slotter.request
    rw [ht, hp, ← hlen, List.take_length]

/-- Witness for C1 (scenario S4): with slice length 20, after pushing twenty
`0x01` and twenty `0x02`, `request(30)` writes twenty `0x01` then ten `0x02`
and leaves `available()` at 10, and `request(10)` writes ten `0x02`; together
the first 40 pushed bytes. -/
theorem Slotter.fifo_byte_stream_witness :
    Slotter.run 30 (Slotter.create ((20 : Nat) : Int)) Slotter.scenarioS4
      = Except.ok (Slotter.create 20,
          [{ count := 30, ret := true, bytes := List.replicate 20 1 ++ List.replicate 10 2 },
           { count := 10, ret := true, bytes := List.replicate 10 2 }]) ∧
    Slotter.writtenBytes
        [{ count := 30, ret := true, bytes := List.replicate 20 1 ++ List.replicate 10 2 },
         { count := 10, ret := true, bytes := List.replicate 10 2 }]
      = (Slotter.pushedBytes Slotter.scenarioS4).take 40 ∧
    Slotter.request 30
        (Slotter.pushAll (Slotter.create 20) [List.replicate 20 1, List.replicate 20 2]) true 30
      = Except.ok (true,
          { dwAvailable := 10, slots := [], slice := some (List.replicate 20 2),
            slice_avail := 10, slice_length := 20 },
          List.replicate 20 1 ++ List.replicate 10 2) :=
  ⟨rfl,
   ((Slotter.fifo_byte_stream 20 30 Slotter.scenarioS4 (by decide)
      (by
        intro op hop
        simp only [Slotter.scenarioS4, List.mem_cons, List.mem_singleton, List.not_mem_nil,
          or_false] at hop
        rcases hop with h | h | h | h <;> subst h
        · exact ⟨_, rfl, rfl⟩
        · exact ⟨_, rfl, rfl⟩
        · exact ⟨rfl, by decide⟩
        · exact ⟨rfl, by decide⟩)).1 _ _ rfl).2,
   rfl⟩

/-! ### Aggregator: contribution rules -/

theorem POINT.ne_iff (p q : POINT) : p ≠ q ↔ (p.x ≠ q.x ∨ p.y ≠ q.y) := by
  cases p with
  | mk px py =>
    cases q with
    | mk qx qy =>
      simp only [ne_eq, POINT.mk.injEq, not_and_or]

theorem dwSub_dwAdd (t elapsed : Nat) (h : elapsed < DWORD_MOD) :
    dwSub (dwAdd t elapsed) t = elapsed := by
  unfold dwSub dwAdd
  unfold DWORD_MOD at *
  omega

theorem Aggregator.absorb_fields (a : Aggregator) (record : HashInput) :
    (Aggregator.absorb a record).dEntropy = a.dEntropy ∧
      (Aggregator.absorb a record).cbRequested = a.cbRequested ∧
      (Aggregator.absorb a record).ptLastPos = a.ptLastPos ∧
      (Aggregator.absorb a record).bLastScanCode = a.bLastScanCode ∧
      (Aggregator.absorb a record).dwLastTime = a.dwLastTime := by
  unfold Aggregator.absorb
  cases a.hHash <;> exact ⟨rfl, rfl, rfl, rfl, rfl⟩

theorem Aggregator.handleMouse_true (a : Aggregator) (event : MousePosition)
    (h : event.ptMousePos ≠ a.ptLastPos ∧ 100 < dwSub event.dwTickCount a.dwLastTime) :
    Aggregator.handleMouse a event
      = (true, { Aggregator.absorb a (HashInput.mouse event) with
                   ptLastPos := event.ptMousePos, dwLastTime := event.dwTickCount,
                   dEntropy := a.dEntropy + 3 / 2 }) := by
  obtain ⟨he, hc, hp, hs, ht⟩ := Aggregator.absorb_fields a (HashInput.mouse event)
  unfold Aggregator.handleMouse
  simp only [hp, ht, he, MOUSE_ENTROPY_PER_SAMPLE]
  rw [if_pos ⟨(POINT.ne_iff _ _).mp h.1, h.2⟩]

theorem Aggregator.handleMouse_false (a : Aggregator) (event : MousePosition)
    (h : ¬ (event.ptMousePos ≠ a.ptLastPos ∧ 100 < dwSub event.dwTickCount a.dwLastTime)) :
    Aggregator.handleMouse a event = (false, Aggregator.absorb a (HashInput.mouse event)) := by
  obtain ⟨he, hc, hp, hs, ht⟩ := Aggregator.absorb_fields a (HashInput.mouse event)
  unfold Aggregator.handleMouse
  simp only [hp, ht]
  rw [if_neg (fun hc => h ⟨(POINT.ne_iff _ _).mpr hc.1, hc.2⟩)]

/-- C5 (mouse contribution rule): for every Aggregator state and every mouse
sample, `handle` returns `TRUE` exactly when the position differs from
`ptLastPos` and the `DWORD` difference `tick - dwLastTime` (modulo `2^32`)
exceeds 100; then the new state has the sample's position and tick, the
entropy increased by 1.5 and the last scan code unchanged; when it returns
`FALSE`, entropy, last position, last tick and last scan code are unchanged.
Hence a sample at a new position whose tick follows `dwLastTime` by an elapsed
time between 101 and `2^32 - 1`, taken modulo `2^32`, is accepted also across
a wrap of the tick counter. -/
theorem Aggregator.mouse_contribution_rule (a : Aggregator) (event : MousePosition) :
    ((Aggregator.handleMouse a event).1 = true ↔
      (event.ptMousePos ≠ a.ptLastPos ∧ 100 < dwSub event.dwTickCount a.dwLastTime)) ∧
    ((Aggregator.handleMouse a event).1 = true →
      (Aggregator.handleMouse a event).2.ptLastPos = event.ptMousePos ∧
      (Aggregator.handleMouse a event).2.dwLastTime = event.dwTickCount ∧
      (Aggregator.handleMouse a event).2.dEntropy = a.dEntropy + 3 / 2 ∧
      (Aggregator.handleMouse a event).2.bLastScanCode = a.bLastScanCode) ∧
    ((Aggregator.handleMouse a event).1 = false →
      (Aggregator.handleMouse a event).2.dEntropy = a.dEntropy ∧
      (Aggregator.handleMouse a event).2.ptLastPos = a.ptLastPos ∧
      (Aggregator.handleMouse a event).2.dwLastTime = a.dwLastTime ∧
      (Aggregator.handleMouse a event).2.bLastScanCode = a.bLastScanCode) ∧
    (∀ elapsed : Nat, 100 < elapsed → elapsed < DWORD_MOD →
      event.dwTickCount = dwAdd a.dwLastTime elapsed → event.ptMousePos ≠ a.ptLastPos →
      (Aggregator.handleMouse a event).1 = true) := by
  obtain ⟨he, hc, hp, hs, ht⟩ := Aggregator.absorb_fields a (HashInput.mouse event)
  by_cases h : event.ptMousePos ≠ a.ptLastPos ∧ 100 < dwSub event.dwTickCount a.dwLastTime
  · rw [Aggregator.handleMouse_true a event h]
    refine ⟨⟨fun _ => h, fun _ => rfl⟩, fun _ => ⟨rfl, rfl, rfl, hs⟩, ?_, fun _ _ _ _ _ => rfl⟩
    intro hc
    cases hc
  · rw [Aggregator.handleMouse_false a event h]
    refine ⟨⟨?_, fun hc => absurd hc h⟩, ?_, fun _ => ⟨he, hp, ht, hs⟩, ?_⟩
    · intro hc
      cases hc
    · intro hc
      cases hc
    · intro elapsed h100 hlt htick hpos
      exfalso
      apply h
      refine ⟨hpos, ?_⟩
      rw [htick, dwSub_dwAdd _ _ hlt]
      exact h100

/-- Witness for C5: last tick `2^32 - 50`, sample at a new position with tick
100, that is 150 ms later across the wrap; accepted, entropy 0 + 1.5. -/
theorem Aggregator.mouse_contribution_rule_witness :
    (Aggregator.handleMouse { Aggregator.new with dwLastTime := 4294967246 }
        { ptMousePos := { x := 1, y := 1 }, dwTickCount := 100 }).1 = true ∧
      (Aggregator.handleMouse { Aggregator.new with dwLastTime := 4294967246 }
        { ptMousePos := { x := 1, y := 1 }, dwTickCount := 100 }).2.dEntropy = 0 + 3 / 2 :=
  have h := Aggregator.mouse_contribution_rule { Aggregator.new with dwLastTime := 4294967246 }
    { ptMousePos := { x := 1, y := 1 }, dwTickCount := 100 }
  have ht := h.2.2.2 150 (by decide) (by decide) (by decide) (by decide)
  ⟨ht, (h.2.1 ht).2.2.1⟩


/-- C6 (key contribution rule): for every Aggregator state and every key
sample, `handle` returns `TRUE` exactly when the sample is a release or its
scan code differs from `bLastScanCode` and the `DWORD` difference
`tick - dwLastTime` (modulo `2^32`) exceeds 100; then the new state has the
sample's scan code and tick, the entropy increased by 1 and the last position
unchanged; when it returns `FALSE` the estimator fields are unchanged.  A
release therefore always contributes, and on a fresh Aggregator the release
`{scan = 1, tick = 10}` makes `entropy()` equal 1. -/
theorem Aggregator.key_contribution_rule (a : Aggregator) (event : KeyPressed) :
    ((Aggregator.handleKey a event).1 = true ↔
      (event.isUp = true ∨ (event.bScanCode ≠ a.bLastScanCode ∧
        100 < dwSub event.dwTickCount a.dwLastTime))) ∧
    ((Aggregator.handleKey a event).1 = true →
      (Aggregator.handleKey a event).2.bLastScanCode = event.bScanCode ∧
      (Aggregator.handleKey a event).2.dwLastTime = event.dwTickCount ∧
      (Aggregator.handleKey a event).2.dEntropy = a.dEntropy + 1 ∧
      (Aggregator.handleKey a event).2.ptLastPos = a.ptLastPos) ∧
    ((Aggregator.handleKey a event).1 = false →
      (Aggregator.handleKey a event).2.dEntropy = a.dEntropy ∧
      (Aggregator.handleKey a event).2.ptLastPos = a.ptLastPos ∧
      (Aggregator.handleKey a event).2.dwLastTime = a.dwLastTime ∧
      (Aggregator.handleKey a event).2.bLastScanCode = a.bLastScanCode ∧
      (Aggregator.handleKey a event).2.cbRequested = a.cbRequested) ∧
    (event.isUp = true → (Aggregator.handleKey a event).1 = true) ∧
    Aggregator.entropy (Aggregator.handleKey Aggregator.new
        { bScanCode := 1, dwTickCount := 10, isUp := true }).2 = 1 ∧
    (∀ cursor, Aggregator.entropy (Aggregator.handleKey (Aggregator.started cursor)
        { bScanCode := 1, dwTickCount := 10, isUp := true }).2 = 1) := by
  obtain ⟨he, hc, hp, hs, ht⟩ := Aggregator.absorb_fields a (HashInput.key event)
  have hfresh : ∀ b : Aggregator, b.dEntropy = 0 →
      Aggregator.entropy (Aggregator.handleKey b
        { bScanCode := 1, dwTickCount := 10, isUp := true }).2 = 1 := by
    intro b hb
    obtain ⟨hbe, _⟩ := Aggregator.absorb_fields b
      (HashInput.key { bScanCode := 1, dwTickCount := 10, isUp := true })
    unfold Aggregator.handleKey Aggregator.entropy
    simp only [true_or, if_true, hbe, hb, KEY_ENTROPY_PER_SAMPLE, zero_add]
  by_cases h : event.isUp = true ∨ (event.bScanCode ≠ a.bLastScanCode ∧
      100 < dwSub event.dwTickCount a.dwLastTime)
  · have hcond : event.isUp = true ∨ ((Aggregator.absorb a (HashInput.key event)).bLastScanCode
          ≠ event.bScanCode ∧
        dwSub event.dwTickCount (Aggregator.absorb a (HashInput.key event)).dwLastTime > 100) := by
      rw [hs, ht]
      rcases h with h | h
      · exact Or.inl h
      · exact Or.inr ⟨fun hc => h.1 hc.symm, h.2⟩
    have hrun : Aggregator.handleKey a event
        = (true, { Aggregator.absorb a (HashInput.key event) with
                     bLastScanCode := event.bScanCode, dwLastTime := event.dwTickCount,
                     dEntropy := a.dEntropy + 1 }) := by
      unfold Aggregator.handleKey
      simp only [if_pos hcond, he, KEY_ENTROPY_PER_SAMPLE]
    rw [hrun]
    refine ⟨⟨fun _ => h, fun _ => rfl⟩, fun _ => ⟨rfl, rfl, rfl, hp⟩, ?_, fun _ => rfl,
      hfresh _ rfl, fun cursor => hfresh _ rfl⟩
    intro hc
    cases hc
  · have hcond : ¬ (event.isUp = true ∨ ((Aggregator.absorb a (HashInput.key event)).bLastScanCode
          ≠ event.bScanCode ∧
        dwSub event.dwTickCount (Aggregator.absorb a (HashInput.key event)).dwLastTime > 100)) := by
      rw [hs, ht]
      intro hc
      apply h
      rcases hc with hc | hc
      · exact Or.inl hc
      · exact Or.inr ⟨fun hc2 => hc.1 hc2.symm, hc.2⟩
    have hrun : Aggregator.handleKey a event
        = (false, Aggregator.absorb a (HashInput.key event)) := by
      unfold Aggregator.handleKey
      simp only [if_neg hcond]
    rw [hrun]
    refine ⟨⟨?_, fun hc => absurd hc h⟩, ?_, fun _ => ⟨he, hp, ht, hs, hc⟩, ?_,
      hfresh _ rfl, fun cursor => hfresh _ rfl⟩
    · intro hc
      cases hc
    · intro hc
      cases hc
    · intro hup
      exact absurd (Or.inl hup) h


/-! ### Aggregator: the threshold scenario -/

theorem Aggregator.handleMouse_cbRequested (a : Aggregator) (event : MousePosition) :
    (Aggregator.handleMouse a event).2.cbRequested = a.cbRequested := by
  obtain ⟨_, hc, _⟩ := Aggregator.absorb_fields a (HashInput.mouse event)
  by_cases h : event.ptMousePos ≠ a.ptLastPos ∧ 100 < dwSub event.dwTickCount a.dwLastTime
  · rw [Aggregator.handleMouse_true a event h]
    exact hc
  · rw [Aggregator.handleMouse_false a event h]
    exact hc

theorem Aggregator.feedMouse_cons (a : Aggregator) (event : MousePosition)
    (rest : List MousePosition) :
    Aggregator.feedMouse a (event :: rest)
      = Aggregator.feedMouse (Aggregator.handleMouse a event).2 rest := rfl

theorem Aggregator.chained_all_contribute :
    ∀ (samples : List MousePosition) (a : Aggregator), Aggregator.Chained samples →
      (∀ first, samples.head? = some first →
        first.ptMousePos ≠ a.ptLastPos ∧ 100 < dwSub first.dwTickCount a.dwLastTime) →
      (Aggregator.feedMouse a samples).dEntropy = a.dEntropy + 3 / 2 * (samples.length : ℚ) ∧
        (Aggregator.feedMouse a samples).cbRequested = a.cbRequested := by
  intro samples
  induction samples with
  | nil =>
    intro a _ _
    exact ⟨by simp [Aggregator.feedMouse], rfl⟩
  | cons e rest ih =>
    intro a hch hfirst
    have hrun := Aggregator.handleMouse_true a e (hfirst e rfl)
    have hstep : Aggregator.feedMouse a (e :: rest)
        = Aggregator.feedMouse (Aggregator.handleMouse a e).2 rest := rfl
    have hcb := Aggregator.handleMouse_cbRequested a e
    have hnext : ∀ first, rest.head? = some first →
        first.ptMousePos ≠ (Aggregator.handleMouse a e).2.ptLastPos ∧
          100 < dwSub first.dwTickCount (Aggregator.handleMouse a e).2.dwLastTime := by
      intro first hf
      cases rest with
      | nil => cases hf
      | cons e2 rest2 =>
        injection hf with hf
        subst hf
        obtain ⟨ht, hx, _, _⟩ := hch
        rw [hrun]
        refine ⟨?_, ?_⟩
        · show e2.ptMousePos ≠ e.ptMousePos
          intro hc
          rw [hc] at hx
          omega
        · show 100 < dwSub e2.dwTickCount e.dwTickCount
          rw [ht, dwSub_dwAdd _ _ (by decide)]
          decide
    have hch' : Aggregator.Chained rest := by
      cases rest with
      | nil => trivial
      | cons e2 rest2 => exact hch.2.2.2
    obtain ⟨h1, h2⟩ := ih (Aggregator.handleMouse a e).2 hch' hnext
    rw [hstep, h1, h2, hcb]
    refine ⟨?_, rfl⟩
    rw [hrun]
    show a.dEntropy + 3 / 2 + 3 / 2 * (rest.length : ℚ) = a.dEntropy + 3 / 2 * ((rest.length + 1 : Nat) : ℚ)
    push_cast
    ring

theorem Aggregator.chained_take :
    ∀ (samples : List MousePosition) (k : Nat), Aggregator.Chained samples →
      Aggregator.Chained (samples.take k) := by
  intro samples
  induction samples with
  | nil =>
    intro k _
    simp [Aggregator.Chained]
  | cons e rest ih =>
    intro k hch
    cases k with
    | zero => simp [Aggregator.Chained]
    | succ k =>
      cases rest with
      | nil => simp [Aggregator.Chained]
      | cons e2 rest2 =>
        cases k with
        | zero => simp [Aggregator.Chained]
        | succ k =>
          have h2 := ih (k + 1) hch.2.2.2
          rw [List.take_succ_cons] at h2
          rw [List.take_succ_cons, List.take_succ_cons]
          exact ⟨hch.1, hch.2.1, hch.2.2.1, h2⟩

theorem Aggregator.diagonal_length (n : Nat) :
    ∀ (x y : Int) (tick : Nat), (Aggregator.diagonal x y tick n).length = n := by
  induction n with
  | zero =>
    intro x y tick
    rfl
  | succ n ih =>
    intro x y tick
    rw [Aggregator.diagonal, List.length_cons, ih]

theorem Aggregator.diagonal_chained (n : Nat) :
    ∀ (x y : Int) (tick : Nat), Aggregator.Chained (Aggregator.diagonal x y tick n) := by
  induction n with
  | zero =>
    intro x y tick
    trivial
  | succ n ih =>
    intro x y tick
    cases n with
    | zero => trivial
    | succ n =>
      have h := ih (x + 1) (y + 1) (dwAdd tick 150)
      rw [Aggregator.diagonal] at h ⊢
      rw [Aggregator.diagonal]
      exact ⟨rfl, rfl, rfl, h⟩


theorem Aggregator.started_fields (cursor : POINT) :
    (Aggregator.started cursor).dEntropy = 0 ∧ (Aggregator.started cursor).cbRequested = 160 ∧
      (Aggregator.started cursor).ptLastPos = cursor ∧
      (Aggregator.started cursor).dwLastTime = 0 :=
  ⟨rfl, rfl, rfl, rfl⟩

/-- C7, refuted as stated: cursor snapshot `(0,0)` and the 107 samples at
positions `(1,1), (2,2), ...` with ticks `0, 150, 300, ...`; every sample is
150 ms and `(1,1)` after the one before it, yet the first sample (tick 0, not
more than 100 ms after the initial last tick 0) does not contribute, so only
106 samples count and `enoughEntropy()` is still false after sample 107
(entropy 159). -/
theorem Aggregator.threshold_missed_when_first_tick_is_zero :
    (Aggregator.diagonal 1 1 0 107).length = 107 ∧
      Aggregator.Chained (Aggregator.diagonal 1 1 0 107) ∧
      Aggregator.enoughEntropy
        (Aggregator.feedMouse (Aggregator.started { x := 0, y := 0 })
          (Aggregator.diagonal 1 1 0 107)) = false := by
  refine ⟨Aggregator.diagonal_length 107 1 1 0, Aggregator.diagonal_chained 107 1 1 0, ?_⟩
  have hsplit : Aggregator.diagonal 1 1 0 107
      = { ptMousePos := { x := 1, y := 1 }, dwTickCount := 0 }
          :: Aggregator.diagonal 2 2 150 106 := rfl
  have hfirst : Aggregator.handleMouse (Aggregator.started { x := 0, y := 0 })
      { ptMousePos := { x := 1, y := 1 }, dwTickCount := 0 }
      = (false, Aggregator.absorb (Aggregator.started { x := 0, y := 0 })
          (HashInput.mouse { ptMousePos := { x := 1, y := 1 }, dwTickCount := 0 })) :=
    Aggregator.handleMouse_false _ _ (fun hc => absurd hc.2 (by decide))
  have hstep : Aggregator.feedMouse (Aggregator.started { x := 0, y := 0 })
      (Aggregator.diagonal 1 1 0 107)
      = Aggregator.feedMouse (Aggregator.absorb (Aggregator.started { x := 0, y := 0 })
          (HashInput.mouse { ptMousePos := { x := 1, y := 1 }, dwTickCount := 0 }))
          (Aggregator.diagonal 2 2 150 106) := by
    rw [hsplit, Aggregator.feedMouse_cons, hfirst]
  obtain ⟨h1, h2⟩ := Aggregator.chained_all_contribute (Aggregator.diagonal 2 2 150 106)
    (Aggregator.absorb (Aggregator.started { x := 0, y := 0 })
      (HashInput.mouse { ptMousePos := { x := 1, y := 1 }, dwTickCount := 0 }))
    (Aggregator.diagonal_chained 106 2 2 150)
    (by
      intro first hf
      have hd : (Aggregator.diagonal 2 2 150 106).head?
          = some { ptMousePos := { x := 2, y := 2 }, dwTickCount := 150 } := rfl
      rw [hd] at hf
      injection hf with hf
      subst hf
      exact ⟨by decide, by decide⟩)
  unfold Aggregator.enoughEntropy
  rw [hstep, h1, h2, Aggregator.diagonal_length]
  have he : (Aggregator.absorb (Aggregator.started { x := 0, y := 0 })
      (HashInput.mouse { ptMousePos := { x := 1, y := 1 }, dwTickCount := 0 })).dEntropy = 0 := rfl
  have hc : (Aggregator.absorb (Aggregator.started { x := 0, y := 0 })
      (HashInput.mouse { ptMousePos := { x := 1, y := 1 }, dwTickCount := 0 })).cbRequested
      = 160 := rfl
  rw [he, hc, decide_eq_false_iff_not]
  norm_num

/-- C7 (threshold scenario S1, amended): for the constructed and initialised
Aggregator (entropy 0, last tick 0, last position = the cursor snapshot) and
any 107 mouse samples of which the first lies at a position other than the
snapshot with a tick more than 100 ms after tick 0, and each later one is
150 ms (in `DWORD` arithmetic) and `(1,1)` after the one before it,
`enoughEntropy()` is false after each of the first 106 samples and true after
sample 107. -/
theorem Aggregator.threshold_after_107_samples (cursor : POINT)
    (samples : List MousePosition) (first : MousePosition)
    (hlen : samples.length = 107) (hch : Aggregator.Chained samples)
    (hhead : samples.head? = some first) (hpos : first.ptMousePos ≠ cursor)
    (htick : 100 < dwSub first.dwTickCount 0) :
    (∀ k, k ≤ 106 →
      Aggregator.enoughEntropy
        (Aggregator.feedMouse (Aggregator.started cursor) (samples.take k)) = false) ∧
    Aggregator.enoughEntropy (Aggregator.feedMouse (Aggregator.started cursor) samples)
      = true := by
  obtain ⟨he, hc, hp, ht⟩ := Aggregator.started_fields cursor
  have hcount : ∀ k, k ≤ 107 →
      (Aggregator.feedMouse (Aggregator.started cursor) (samples.take k)).dEntropy
          = 3 / 2 * (k : ℚ) ∧
        (Aggregator.feedMouse (Aggregator.started cursor) (samples.take k)).cbRequested
          = 160 := by
    intro k hk
    obtain ⟨h1, h2⟩ := Aggregator.chained_all_contribute (samples.take k)
      (Aggregator.started cursor) (Aggregator.chained_take samples k hch)
      (by
        intro f hf
        have hf2 : f = first := by
          cases samples with
          | nil => cases hhead
          | cons e rest =>
            cases k with
            | zero => cases hf
            | succ k =>
              rw [List.take_succ_cons] at hf
              injection hf with hf
              injection hhead with hhead
              rw [← hf, hhead]
        rw [hf2, hp, ht]
        exact ⟨hpos, htick⟩)
    rw [h1, h2, he, hc, List.length_take, hlen, min_eq_left hk, zero_add]
    exact ⟨rfl, rfl⟩
  constructor
  · intro k hk
    obtain ⟨h1, h2⟩ := hcount k (by omega)
    unfold Aggregator.enoughEntropy
    rw [h1, h2, decide_eq_false_iff_not]
    have hk' : (k : ℚ) ≤ 106 := by exact_mod_cast hk
    push_cast
    intro hle
    linarith
  · obtain ⟨h1, h2⟩ := hcount 107 (le_refl _)
    have hall : samples.take 107 = samples := by
      rw [← hlen]
      exact List.take_length _
    rw [hall] at h1 h2
    unfold Aggregator.enoughEntropy
    rw [h1, h2, decide_eq_true_eq]
    norm_num

/-- Witness for C7: cursor `(0,0)` and the samples `(1,1)@150, (2,2)@300, ...`. -/
theorem Aggregator.threshold_after_107_samples_witness :
    (∀ k, k ≤ 106 →
      Aggregator.enoughEntropy
        (Aggregator.feedMouse (Aggregator.started { x := 0, y := 0 })
          ((Aggregator.diagonal 1 1 150 107).take k)) = false) ∧
    Aggregator.enoughEntropy
      (Aggregator.feedMouse (Aggregator.started { x := 0, y := 0 })
        (Aggregator.diagonal 1 1 150 107)) = true :=
  Aggregator.threshold_after_107_samples { x := 0, y := 0 } (Aggregator.diagonal 1 1 150 107)
    { ptMousePos := { x := 1, y := 1 }, dwTickCount := 150 }
    (Aggregator.diagonal_length 107 1 1 150) (Aggregator.diagonal_chained 107 1 1 150)
    rfl (by decide) (by decide)


/-! ### Protocol: decoding the request -/

theorem ntohl_loadLE (b0 b1 b2 b3 : Nat) (h0 : b0 < 256) (h1 : b1 < 256) (h2 : b2 < 256)
    (h3 : b3 < 256) :
    ntohl (loadLE [b0, b1, b2, b3]) = b0 * 16777216 + b1 * 65536 + b2 * 256 + b3 := by
  unfold ntohl
  simp only [loadLE]
  omega

theorem storeLE_of_bytes (c0 c1 c2 c3 : Nat) (h0 : c0 < 256) (h1 : c1 < 256) (h2 : c2 < 256)
    (h3 : c3 < 256) :
    storeLE (c3 * 16777216 + c2 * 65536 + c1 * 256 + c0) = [c0, c1, c2, c3] := by
  unfold storeLE
  have e0 : (c3 * 16777216 + c2 * 65536 + c1 * 256 + c0) % 256 = c0 := by omega
  have e1 : (c3 * 16777216 + c2 * 65536 + c1 * 256 + c0) / 256 % 256 = c1 := by omega
  have e2 : (c3 * 16777216 + c2 * 65536 + c1 * 256 + c0) / 65536 % 256 = c2 := by omega
  have e3 : (c3 * 16777216 + c2 * 65536 + c1 * 256 + c0) / 16777216 % 256 = c3 := by omega
  rw [e0, e1, e2, e3]

theorem loadLE_storeLE_htonl (n : Nat) (h : n < DWORD_MOD) :
    ntohl (loadLE (storeLE (htonl n))) = n := by
  unfold DWORD_MOD at h
  have hn : n = (n / 16777216 % 256) * 16777216 + (n / 65536 % 256) * 65536
      + (n / 256 % 256) * 256 + n % 256 := by omega
  have hh : htonl n = (n % 256) * 16777216 + (n / 256 % 256) * 65536
      + (n / 65536 % 256) * 256 + n / 16777216 % 256 := rfl
  rw [hh, storeLE_of_bytes _ _ _ _ (Nat.mod_lt _ (by decide)) (Nat.mod_lt _ (by decide))
    (Nat.mod_lt _ (by decide)) (Nat.mod_lt _ (by decide)),
    ntohl_loadLE _ _ _ _ (Nat.mod_lt _ (by decide)) (Nat.mod_lt _ (by decide))
      (Nat.mod_lt _ (by decide)) (Nat.mod_lt _ (by decide))]
  exact hn.symm

theorem Protocol.received_window (p : Protocol) (bytes : List BYTE)
    (hfit : p.dataBufOffset + bytes.length ≤ p.buffer.length) :
    (((Protocol.received p bytes).buffer.drop (Protocol.received p bytes).dataBufOffset).take
        bytes.length) = bytes ∧
      (Protocol.received p bytes).buffer.length = p.buffer.length := by
  unfold Protocol.received writeAt
  constructor
  · show ((p.buffer.take p.dataBufOffset ++ bytes
        ++ p.buffer.drop (p.dataBufOffset + bytes.length)).drop p.dataBufOffset).take
          bytes.length = bytes
    have hl : (p.buffer.take p.dataBufOffset).length = p.dataBufOffset := by
      rw [List.length_take]
      omega
    rw [List.append_assoc, List.drop_left' hl, List.take_left]
  · show (p.buffer.take p.dataBufOffset ++ bytes
        ++ p.buffer.drop (p.dataBufOffset + bytes.length)).length = p.buffer.length
    simp only [List.length_append, List.length_take, List.length_drop]
    omega


theorem Protocol.fresh_fields :
    Protocol.fresh.bytesRECV = 0 ∧ Protocol.fresh.dataBufOffset = 0 ∧
      Protocol.fresh.buffer.length = 8192 :=
  ⟨rfl, rfl, List.length_replicate _ _⟩

theorem Protocol.handle_read_decoded (b0 b1 b2 b3 : Nat) (fuel : Nat) (p : Protocol)
    (slotter : Slotter) (counter : Counter)
    (h0 : b0 < 256) (h1 : b1 < 256) (h2 : b2 < 256) (h3 : b3 < 256)
    (hrecv : p.bytesRECV = 0) (hfit : p.dataBufOffset + 4 ≤ p.buffer.length) :
    Protocol.handle fuel (Protocol.received p [b0, b1, b2, b3]) slotter counter 4
      = (match Protocol.serve fuel (Protocol.received p [b0, b1, b2, b3]) slotter counter 4
            (b0 * 16777216 + b1 * 65536 + b2 * 256 + b3) with
         | Except.error e => Except.error e
         | Except.ok (p1, slotter1, counter1) =>
            Except.ok (Protocol.postNext p1, slotter1, counter1)) := by
  have hdec := ntohl_loadLE b0 b1 b2 b3 h0 h1 h2 h3
  obtain ⟨hwin, hlen⟩ := Protocol.received_window p [b0, b1, b2, b3] hfit
  have hoff : (Protocol.received p [b0, b1, b2, b3]).dataBufOffset = p.dataBufOffset := rfl
  have hr : (Protocol.received p [b0, b1, b2, b3]).bytesRECV = 0 := hrecv
  have hreq : Protocol.handleRequest fuel (Protocol.received p [b0, b1, b2, b3]) slotter counter 4
      = Protocol.serve fuel (Protocol.received p [b0, b1, b2, b3]) slotter counter 4
          (b0 * 16777216 + b1 * 65536 + b2 * 256 + b3) := by
    unfold Protocol.handleRequest
    rw [if_neg (by rw [hlen, hoff]; omega)]
    have hwin' : List.take 4 (List.drop (Protocol.received p [b0, b1, b2, b3]).dataBufOffset
        (Protocol.received p [b0, b1, b2, b3]).buffer) = [b0, b1, b2, b3] := hwin
    rw [hwin', hdec]
  unfold Protocol.handle
  rw [if_pos hr, hreq]

/-! ### Protocol: status byte and response length -/

theorem writeAt_length (buf : List BYTE) (off : Nat) (bytes : List BYTE)
    (h : off + bytes.length ≤ buf.length) : (writeAt buf off bytes).length = buf.length := by
  unfold writeAt
  simp only [List.length_append, List.length_take, List.length_drop]
  omega

theorem Protocol.serve_insufficient (fuel : Nat) (p : Protocol) (slotter : Slotter)
    (counter : Counter) (bytesTransferred c : Nat) (h : slotter.dwAvailable < c)
    (hlen : 1 ≤ p.buffer.length) :
    ∃ p1, Protocol.serve fuel p slotter counter bytesTransferred c
        = Except.ok (p1, slotter, Counter.registerRequest counter (toInt c) false) ∧
      Protocol.response p1 = [0] ∧ p1.bytesTOBESENT = 1 ∧ p1.bytesSEND = 0 ∧
      p1.bytesRECV = bytesTransferred ∧ p1.buffer.length = p.buffer.length := by
  have hl : ¬ p.buffer.length < 1 + 0 := by omega
  unfold Protocol.serve
  rw [Slotter.request_beyond_available_unchanged_aux fuel slotter true c h]
  simp only [List.length_nil, if_neg hl, Bool.false_eq_true, if_false]
  refine ⟨_, rfl, ?_, rfl, rfl, rfl, ?_⟩
  · cases hb : p.buffer with
    | nil =>
      rw [hb] at hlen
      simp at hlen
    | cons b rest =>
      simp [Protocol.response, writeAt, ENTROPY_FAIL, hb]
  · show (writeAt (writeAt p.buffer 1 []) 0 [ENTROPY_FAIL]).length = p.buffer.length
    rw [writeAt_length _ _ _ (by rw [writeAt_length _ _ _ (by simpa using hlen)]; simpa using hlen),
      writeAt_length _ _ _ (by simpa using hlen)]

theorem Protocol.handle_read_insufficient (b0 b1 b2 b3 : Nat) (fuel : Nat) (p : Protocol)
    (slotter : Slotter) (counter : Counter)
    (h0 : b0 < 256) (h1 : b1 < 256) (h2 : b2 < 256) (h3 : b3 < 256)
    (hrecv : p.bytesRECV = 0) (hfit : p.dataBufOffset + 4 ≤ p.buffer.length)
    (hav : slotter.dwAvailable < b0 * 16777216 + b1 * 65536 + b2 * 256 + b3) :
    ∃ p1, Protocol.handle fuel (Protocol.received p [b0, b1, b2, b3]) slotter counter 4
        = Except.ok (Protocol.postNext p1, slotter,
            Counter.registerRequest counter
              (toInt (b0 * 16777216 + b1 * 65536 + b2 * 256 + b3)) false) ∧
      Protocol.response p1 = [0] ∧ p1.bytesTOBESENT = 1 ∧ p1.bytesSEND = 0 ∧
      p1.bytesRECV = 4 ∧ p1.buffer.length = p.buffer.length := by
  have hd := Protocol.handle_read_decoded b0 b1 b2 b3 fuel p slotter counter h0 h1 h2 h3
    hrecv hfit
  obtain ⟨_, hl⟩ := Protocol.received_window p [b0, b1, b2, b3] hfit
  generalize Protocol.received p [b0, b1, b2, b3] = q at hd hl
  generalize b0 * 16777216 + b1 * 65536 + b2 * 256 + b3 = c at hd hav
  obtain ⟨p1, hs, r1, r2, r3, r4, r5⟩ :=
    Protocol.serve_insufficient fuel q slotter counter 4 c hav (by rw [hl]; omega)
  rw [hs] at hd
  exact ⟨p1, hd, r1, r2, r3, r4, by rw [r5, hl]⟩

theorem Counter.incr_of_small (x : Int) (h0 : 0 ≤ x) (h1 : x + 1 < 2147483648) :
    Counter.incr x = x + 1 := by
  unfold Counter.incr toInt toDWORD
  have h2 : ((x + 1) % 4294967296).toNat = (x + 1).toNat := by omega
  rw [h2]
  have h3 : (x + 1).toNat % DWORD_MOD = (x + 1).toNat :=
    Nat.mod_eq_of_lt (by unfold DWORD_MOD; omega)
  rw [h3, if_pos (by unfold INT_LIMIT; omega)]
  omega

theorem Counter.incr_toInt (k : Nat) : Counter.incr (toInt k) = toInt (k + 1) := by
  unfold Counter.incr toInt toDWORD
  unfold DWORD_MOD INT_LIMIT
  split_ifs <;> omega

theorem Counter.registerRequest_fields (c : Counter) (size : Int) (success : Bool) :
    (Counter.registerRequest c size success).lastRequest = size ∧
    (Counter.registerRequest c size success).maxRequest = max c.maxRequest size ∧
    (Counter.registerRequest c size success).cntRequest = Counter.incr c.cntRequest ∧
    (Counter.registerRequest c size success).lastSuccessRequest
      = (if success then size else c.lastSuccessRequest) ∧
    (Counter.registerRequest c size success).maxSuccessRequest
      = (if success then max c.maxSuccessRequest size else c.maxSuccessRequest) ∧
    (Counter.registerRequest c size success).cntSuccessRequest
      = (if success then Counter.incr c.cntSuccessRequest else c.cntSuccessRequest) := by
  have hm1 : max c.maxRequest size = if size > c.maxRequest then size else c.maxRequest := by
    split_ifs with h
    · exact max_eq_right (le_of_lt h)
    · exact max_eq_left (not_lt.mp h)
  have hm2 : max c.maxSuccessRequest size
      = if size > c.maxSuccessRequest then size else c.maxSuccessRequest := by
    split_ifs with h
    · exact max_eq_right (le_of_lt h)
    · exact max_eq_left (not_lt.mp h)
  rw [hm1, hm2]
  unfold Counter.registerRequest
  cases success <;> by_cases h : size > c.maxRequest <;>
    by_cases h2 : size > c.maxSuccessRequest <;> simp [h, h2]

theorem Counter.registerAll_cons (c : Counter) (call : Int × Bool) (rest : List (Int × Bool)) :
    Counter.registerAll c (call :: rest)
      = Counter.registerAll (Counter.registerRequest c call.1 call.2) rest := rfl

theorem Counter.registerAll_spec :
    ∀ (calls : List (Int × Bool)) (c : Counter),
      0 ≤ c.cntSuccessRequest → c.cntSuccessRequest ≤ c.cntRequest →
      c.cntRequest + (calls.length : Int) < 2147483648 →
      c.lastRequest ≤ c.maxRequest → 0 ≤ c.maxRequest →
      c.lastSuccessRequest ≤ c.maxSuccessRequest → 0 ≤ c.maxSuccessRequest →
      (Counter.registerAll c calls).cntRequest = c.cntRequest + (calls.length : Int) ∧
      (Counter.registerAll c calls).cntSuccessRequest
        = c.cntSuccessRequest + ((calls.filter (fun call => call.2)).length : Int) ∧
      (Counter.registerAll c calls).lastRequest ≤ (Counter.registerAll c calls).maxRequest ∧
      0 ≤ (Counter.registerAll c calls).maxRequest ∧
      (Counter.registerAll c calls).lastSuccessRequest
        ≤ (Counter.registerAll c calls).maxSuccessRequest ∧
      0 ≤ (Counter.registerAll c calls).maxSuccessRequest ∧
      ((∀ call ∈ calls, 0 ≤ call.1) → 0 ≤ c.lastRequest → 0 ≤ c.lastSuccessRequest →
        0 ≤ (Counter.registerAll c calls).lastRequest ∧
        0 ≤ (Counter.registerAll c calls).lastSuccessRequest) := by
  intro calls
  induction calls with
  | nil =>
    intro c _ _ _ h4 h5 h6 h7
    refine ⟨by simp [Counter.registerAll], by simp [Counter.registerAll], h4, h5, h6, h7, ?_⟩
    intro _ h8 h9
    exact ⟨h8, h9⟩
  | cons call rest ih =>
    intro c h1 h2 h3 h4 h5 h6 h7
    obtain ⟨size, success⟩ := call
    obtain ⟨f1, f2, f3, f4, f5, f6⟩ := Counter.registerRequest_fields c size success
    have hlen : ((((size, success) :: rest).length : Nat) : Int) = (rest.length : Int) + 1 := by
      simp
    rw [hlen] at h3
    have hcnt : Counter.incr c.cntRequest = c.cntRequest + 1 :=
      Counter.incr_of_small _ (by omega) (by omega)
    have hcs : Counter.incr c.cntSuccessRequest = c.cntSuccessRequest + 1 :=
      Counter.incr_of_small _ h1 (by omega)
    rw [hcnt] at f3
    rw [hcs] at f6
    rw [Counter.registerAll_cons]
    have hfilter : ((((size, success) :: rest).filter (fun call => call.2)).length : Int)
        = (if success then 1 else 0) + ((rest.filter (fun call => call.2)).length : Int) := by
      cases success
      · simp
      · simp
        omega
    cases success with
    | false =>
      simp only [Bool.false_eq_true, if_false] at f4 f5 f6 hfilter
      obtain ⟨g1, g2, g3, g4, g5, g6, g7⟩ :=
        ih (Counter.registerRequest c size false) (by rw [f6]; exact h1)
          (by rw [f6, f3]; omega) (by rw [f3]; omega) (by rw [f1, f2]; exact le_max_right _ _)
          (by rw [f2]; exact le_trans h5 (le_max_left _ _)) (by rw [f4, f5]; exact h6)
          (by rw [f5]; exact h7)
      refine ⟨by rw [g1, f3, hlen]; omega, by rw [g2, f6, hfilter]; omega, g3, g4, g5, g6, ?_⟩
      intro hall h8 h9
      exact g7 (fun x hx => hall x (List.mem_cons_of_mem _ hx))
        (by rw [f1]; exact hall (size, false) (List.mem_cons_self _ _)) (by rw [f4]; exact h9)
    | true =>
      simp only [if_true] at f4 f5 f6 hfilter
      obtain ⟨g1, g2, g3, g4, g5, g6, g7⟩ :=
        ih (Counter.registerRequest c size true) (by rw [f6]; omega)
          (by rw [f6, f3]; omega) (by rw [f3]; omega) (by rw [f1, f2]; exact le_max_right _ _)
          (by rw [f2]; exact le_trans h5 (le_max_left _ _))
          (by rw [f4, f5]; exact le_max_right _ _)
          (by rw [f5]; exact le_trans h7 (le_max_left _ _))
      refine ⟨by rw [g1, f3, hlen]; omega, by rw [g2, f6, hfilter]; omega, g3, g4, g5, g6, ?_⟩
      intro hall h8 h9
      have hs : 0 ≤ size := hall (size, true) (List.mem_cons_self _ _)
      exact g7 (fun x hx => hall x (List.mem_cons_of_mem _ hx))
        (by rw [f1]; exact hs) (by rw [f4]; exact hs)

theorem Counter.registerAll_cntRequest_wraps :
    ∀ (calls : List (Int × Bool)) (c : Counter) (k : Nat), c.cntRequest = toInt k →
      (Counter.registerAll c calls).cntRequest = toInt (k + calls.length) := by
  intro calls
  induction calls with
  | nil =>
    intro c k h
    exact h
  | cons call rest ih =>
    intro c k h
    obtain ⟨_, _, f3, _⟩ := Counter.registerRequest_fields c call.1 call.2
    rw [Counter.registerAll_cons, ih _ (k + 1) (by rw [f3, h, Counter.incr_toInt])]
    congr 1
    simp only [List.length_cons]
    omega


theorem Counter.registerAll_append (c : Counter) (front back : List (Int × Bool)) :
    Counter.registerAll c (front ++ back)
      = Counter.registerAll (Counter.registerAll c front) back := by
  unfold Counter.registerAll
  exact List.foldl_append _ _ _ _

theorem Counter.registerAll_refused :
    ∀ (calls : List (Int × Bool)) (c : Counter), (∀ x ∈ calls, x.2 = false) →
      (Counter.registerAll c calls).lastSuccessRequest = c.lastSuccessRequest ∧
      (Counter.registerAll c calls).maxSuccessRequest = c.maxSuccessRequest := by
  intro calls
  induction calls with
  | nil =>
    intro c _
    exact ⟨rfl, rfl⟩
  | cons call rest ih =>
    intro c hall
    obtain ⟨_, _, _, f4, f5, _⟩ := Counter.registerRequest_fields c call.1 call.2
    have hc : call.2 = false := hall call (List.mem_cons_self _ _)
    rw [hc] at f4 f5
    simp only [Bool.false_eq_true, if_false] at f4 f5
    obtain ⟨g1, g2⟩ := ih (Counter.registerRequest c call.1 call.2)
      (fun x hx => hall x (List.mem_cons_of_mem _ hx))
    rw [Counter.registerAll_cons, g1, g2, hc]
    exact ⟨f4, f5⟩

theorem Counter.registerAll_max :
    ∀ (calls : List (Int × Bool)) (c : Counter),
      c.maxRequest ≤ (Counter.registerAll c calls).maxRequest ∧
      (∀ call ∈ calls, call.1 ≤ (Counter.registerAll c calls).maxRequest) ∧
      ((Counter.registerAll c calls).maxRequest = c.maxRequest ∨
        ∃ call ∈ calls, (Counter.registerAll c calls).maxRequest = call.1) ∧
      c.maxSuccessRequest ≤ (Counter.registerAll c calls).maxSuccessRequest ∧
      (∀ call ∈ calls, call.2 = true →
        call.1 ≤ (Counter.registerAll c calls).maxSuccessRequest) ∧
      ((Counter.registerAll c calls).maxSuccessRequest = c.maxSuccessRequest ∨
        ∃ call ∈ calls, call.2 = true ∧
          (Counter.registerAll c calls).maxSuccessRequest = call.1) := by
  intro calls
  induction calls with
  | nil =>
    intro c
    refine ⟨le_refl _, ?_, Or.inl rfl, le_refl _, ?_, Or.inl rfl⟩
    · intro call hc
      exact absurd hc (List.not_mem_nil _)
    · intro call hc
      exact absurd hc (List.not_mem_nil _)
  | cons call rest ih =>
    intro c
    obtain ⟨_, f2, _, _, f5, _⟩ := Counter.registerRequest_fields c call.1 call.2
    obtain ⟨g1, g2, g3, g4, g5, g6⟩ := ih (Counter.registerRequest c call.1 call.2)
    rw [Counter.registerAll_cons]
    rw [f2] at g1 g3
    rw [f5] at g4 g6
    refine ⟨le_trans (le_max_left _ _) g1, ?_, ?_, ?_, ?_, ?_⟩
    · intro x hx
      rcases List.mem_cons.mp hx with hx | hx
      · rw [hx]
        exact le_trans (le_max_right _ _) g1
      · exact g2 x hx
    · rcases g3 with g3 | ⟨x, hx, g3⟩
      · rcases le_total c.maxRequest call.1 with hle | hle
        · rw [max_eq_right hle] at g3
          exact Or.inr ⟨call, List.mem_cons_self _ _, g3⟩
        · rw [max_eq_left hle] at g3
          exact Or.inl g3
      · exact Or.inr ⟨x, List.mem_cons_of_mem _ hx, g3⟩
    · cases hs : call.2 with
      | false =>
        rw [hs] at g4
        simpa using g4
      | true =>
        rw [hs] at g4
        simp only [if_true] at g4
        exact le_trans (le_max_left _ _) g4
    · intro x hx hxs
      rcases List.mem_cons.mp hx with hx | hx
      · rw [hx] at hxs
        rw [hxs] at g4
        simp only [if_true] at g4
        rw [hx, hxs]
        exact le_trans (le_max_right _ _) g4
      · exact g5 x hx hxs
    · cases hs : call.2 with
      | false =>
        rw [hs] at g6
        simp only [Bool.false_eq_true, if_false] at g6
        rcases g6 with g6 | ⟨x, hx, g6⟩
        · exact Or.inl g6
        · exact Or.inr ⟨x, List.mem_cons_of_mem _ hx, g6⟩
      | true =>
        rw [hs] at g6
        simp only [if_true] at g6
        rcases g6 with g6 | ⟨x, hx, g6⟩
        · rcases le_total c.maxSuccessRequest call.1 with hle | hle
          · rw [max_eq_right hle] at g6
            exact Or.inr ⟨call, List.mem_cons_self _ _, hs, g6⟩
          · rw [max_eq_left hle] at g6
            exact Or.inl g6
        · exact Or.inr ⟨x, List.mem_cons_of_mem _ hx, g6⟩

theorem Counter.registerAll_last (c : Counter) (front : List (Int × Bool)) (call : Int × Bool) :
    (Counter.registerAll c (front ++ [call])).lastRequest = call.1 ∧
      (call.2 = true →
        (Counter.registerAll c (front ++ [call])).lastSuccessRequest = call.1) := by
  obtain ⟨f1, _, _, f4, _, _⟩ :=
    Counter.registerRequest_fields (Counter.registerAll c front) call.1 call.2
  have hstep : Counter.registerAll c (front ++ [call])
      = Counter.registerRequest (Counter.registerAll c front) call.1 call.2 := by
    rw [Counter.registerAll_append]
    rfl
  rw [hstep]
  refine ⟨f1, ?_⟩
  intro hs
  rw [f4, hs]
  rfl


/-- C11, refuted as stated: (a) one call `registerRequest(-1, false)` on the
fresh Counter leaves `lastRequest = -1`; (b) the handler produces this call:
the request `FF FF FF FF` (count `2^32 - 1`) on an empty Slotter reaches the
Counter as the `int` -1; (c) after `2^31` calls the `int` call counter, as the
compiled code increments it, stands at `-2^31`. -/
theorem Counter.fields_negative_counterexample :
    (Counter.registerAll Counter.new [(-1, false)]).lastRequest = -1 ∧
    (∃ p1 posted counter1,
      Protocol.handle 0 (Protocol.received Protocol.fresh [255, 255, 255, 255])
          (Slotter.create 20) Counter.new 4
        = Except.ok ((p1, posted), Slotter.create 20, counter1) ∧
      counter1.lastRequest = -1) ∧
    (Counter.registerAll Counter.new (List.replicate 2147483648 (0, false))).cntRequest
      = -2147483648 := by
  refine ⟨rfl, ?_, ?_⟩
  · obtain ⟨p1, hd, _⟩ := Protocol.handle_read_insufficient 255 255 255 255 0 Protocol.fresh
      (Slotter.create 20) Counter.new (by decide) (by decide) (by decide) (by decide)
      Protocol.fresh_fields.1
      (by rw [Protocol.fresh_fields.2.1, Protocol.fresh_fields.2.2]; decide) (by decide)
    exact ⟨_, _, _, hd, rfl⟩
  · rw [Counter.registerAll_cntRequest_wraps _ Counter.new 0 rfl, List.length_replicate]
    decide

/-- C11 (Counter invariant, amended): starting from the freshly constructed
Counter, after any sequence of fewer than `2^31` `registerRequest` calls with
arbitrary sizes and success flags, `cntRequest` is the number of calls and
`cntSuccessRequest` the number of successful calls (both non-negative, the
first at least the second), `maxRequest >= lastRequest`, `maxRequest >= 0`,
`maxSuccessRequest >= lastSuccessRequest` and `maxSuccessRequest >= 0`;
`lastRequest` and `lastSuccessRequest` are non-negative when every size given
was non-negative. The size fields are exactly the sizes given: `lastRequest`
is the size of the last call (0 when there was none), `lastSuccessRequest`
the size of the last successful call (0 when there was none), `maxRequest`
the largest of 0 and the sizes of all calls, `maxSuccessRequest` the largest
of 0 and the sizes of the successful calls. -/
theorem Counter.invariant_below_int_limit (calls : List (Int × Bool))
    (h : calls.length < 2147483648) :
    (Counter.registerAll Counter.new calls).cntRequest = (calls.length : Int) ∧
    (Counter.registerAll Counter.new calls).cntSuccessRequest
      = ((calls.filter (fun call => call.2)).length : Int) ∧
    0 ≤ (Counter.registerAll Counter.new calls).cntSuccessRequest ∧
    (Counter.registerAll Counter.new calls).cntSuccessRequest
      ≤ (Counter.registerAll Counter.new calls).cntRequest ∧
    (Counter.registerAll Counter.new calls).lastRequest
      ≤ (Counter.registerAll Counter.new calls).maxRequest ∧
    0 ≤ (Counter.registerAll Counter.new calls).maxRequest ∧
    (Counter.registerAll Counter.new calls).lastSuccessRequest
      ≤ (Counter.registerAll Counter.new calls).maxSuccessRequest ∧
    0 ≤ (Counter.registerAll Counter.new calls).maxSuccessRequest ∧
    ((∀ call ∈ calls, 0 ≤ call.1) →
      0 ≤ (Counter.registerAll Counter.new calls).lastRequest ∧
      0 ≤ (Counter.registerAll Counter.new calls).lastSuccessRequest) ∧
    (calls = [] → (Counter.registerAll Counter.new calls).lastRequest = 0) ∧
    (∀ front call, calls = front ++ [call] →
      (Counter.registerAll Counter.new calls).lastRequest = call.1) ∧
    ((∀ call ∈ calls, call.2 = false) →
      (Counter.registerAll Counter.new calls).lastSuccessRequest = 0) ∧
    (∀ front call back, calls = front ++ call :: back → call.2 = true →
      (∀ later ∈ back, later.2 = false) →
      (Counter.registerAll Counter.new calls).lastSuccessRequest = call.1) ∧
    (∀ call ∈ calls, call.1 ≤ (Counter.registerAll Counter.new calls).maxRequest) ∧
    ((Counter.registerAll Counter.new calls).maxRequest = 0 ∨
      ∃ call ∈ calls, (Counter.registerAll Counter.new calls).maxRequest = call.1) ∧
    (∀ call ∈ calls, call.2 = true →
      call.1 ≤ (Counter.registerAll Counter.new calls).maxSuccessRequest) ∧
    ((Counter.registerAll Counter.new calls).maxSuccessRequest = 0 ∨
      ∃ call ∈ calls, call.2 = true ∧
        (Counter.registerAll Counter.new calls).maxSuccessRequest = call.1) := by
  obtain ⟨g1, g2, g3, g4, g5, g6, g7⟩ :=
    Counter.registerAll_spec calls Counter.new (le_refl _) (le_refl _)
      (by show (0 : Int) + (calls.length : Int) < 2147483648; omega)
      (le_refl _) (le_refl _) (le_refl _) (le_refl _)
  have e1 : (Counter.registerAll Counter.new calls).cntRequest = (calls.length : Int) := by
    rw [g1]
    show (0 : Int) + _ = _
    omega
  have e2 : (Counter.registerAll Counter.new calls).cntSuccessRequest
      = ((calls.filter (fun call => call.2)).length : Int) := by
    rw [g2]
    show (0 : Int) + _ = _
    omega
  have hle : (calls.filter (fun call => call.2)).length ≤ calls.length :=
    List.length_filter_le _ _
  obtain ⟨_, m2, m3, _, m5, m6⟩ := Counter.registerAll_max calls Counter.new
  refine ⟨e1, e2, by rw [e2]; omega, by rw [e1, e2]; omega, g3, g4, g5, g6, ?_, ?_, ?_, ?_, ?_,
    m2, m3, m5, m6⟩
  · intro hall
    exact g7 hall (le_refl _) (le_refl _)
  · intro hnil
    rw [hnil]
    rfl
  · intro front call hc
    rw [hc]
    exact (Counter.registerAll_last Counter.new front call).1
  · intro hall
    exact (Counter.registerAll_refused calls Counter.new hall).1
  · intro front call back hc hs hback
    have hsplit : front ++ call :: back = (front ++ [call]) ++ back := by
      rw [List.append_assoc]
      rfl
    rw [hc, hsplit, Counter.registerAll_append,
      (Counter.registerAll_refused back _ hback).1]
    exact (Counter.registerAll_last Counter.new front call).2 hs

/-- Witness for C11: a successful request of 5 bytes, then a refused one of 1
byte: two calls, one successful, `lastRequest = 1`, `lastSuccessRequest = 5`. -/
theorem Counter.invariant_below_int_limit_witness :
    (Counter.registerAll Counter.new [(5, true), (1, false)]).cntRequest = 2 ∧
    (Counter.registerAll Counter.new [(5, true), (1, false)]).cntSuccessRequest = 1 ∧
    (Counter.registerAll Counter.new [(5, true), (1, false)]).lastRequest
      ≤ (Counter.registerAll Counter.new [(5, true), (1, false)]).maxRequest ∧
    0 ≤ (Counter.registerAll Counter.new [(5, true), (1, false)]).lastRequest ∧
    (Counter.registerAll Counter.new [(5, true), (1, false)]).lastRequest = 1 ∧
    (Counter.registerAll Counter.new [(5, true), (1, false)]).lastSuccessRequest = 5 :=
  have h := Counter.invariant_below_int_limit [(5, true), (1, false)] (by decide)
  ⟨h.1, h.2.1, h.2.2.2.2.1,
   (h.2.2.2.2.2.2.2.2.1 (by
      intro call hc
      simp only [List.mem_cons, List.mem_singleton, List.not_mem_nil, or_false] at hc
      rcases hc with hc | hc <;> subst hc <;> decide)).1,
   h.2.2.2.2.2.2.2.2.2.2.1 [(5, true)] (1, false) rfl,
   h.2.2.2.2.2.2.2.2.2.2.2.2.1 [] (5, true) [(1, false)] rfl rfl (by
      intro later hl
      simp only [List.mem_singleton] at hl
      subst hl
      rfl)⟩


/-! ### Protocol: the write phase -/

theorem Protocol.postNext_expected (p : Protocol) :
    (Protocol.postNext p).2 = Protocol.expectedPost p.bytesTOBESENT p.bytesSEND ∧
    (Protocol.postNext p).1.buffer = p.buffer ∧
    (Protocol.postNext p).1.bytesTOBESENT = p.bytesTOBESENT ∧
    (Protocol.postNext p).1.bytesSEND = p.bytesSEND ∧
    (p.bytesSEND < p.bytesTOBESENT →
      (Protocol.postNext p).1.bytesRECV = p.bytesRECV ∧
      (Protocol.postNext p).1.dataBufOffset = p.bytesSEND ∧
      (Protocol.postNext p).1.dataBufLen = p.bytesTOBESENT - p.bytesSEND) ∧
    (¬ p.bytesSEND < p.bytesTOBESENT →
      (Protocol.postNext p).1.bytesRECV = 0 ∧ (Protocol.postNext p).1.dataBufOffset = 0 ∧
      (Protocol.postNext p).1.dataBufLen = DATABUFSIZE) := by
  unfold Protocol.postNext Protocol.expectedPost
  by_cases h : p.bytesSEND < p.bytesTOBESENT
  · have h' : p.bytesTOBESENT > p.bytesSEND := h
    rw [if_pos h', if_pos h]
    exact ⟨rfl, rfl, rfl, rfl, fun _ => ⟨rfl, rfl, rfl⟩, fun hc => absurd h hc⟩
  · have h' : ¬ p.bytesTOBESENT > p.bytesSEND := h
    rw [if_neg h', if_neg h]
    exact ⟨rfl, rfl, rfl, rfl, fun hc => absurd hc h, fun _ => ⟨rfl, rfl, rfl⟩⟩

theorem Slotter.oneSlice_reachable : Slotter.Reachable 20 Slotter.oneSlice :=
  Slotter.Reachable.push _ _ Slotter.Reachable.start
    (fun block hb => by injection hb with hb; rw [← hb]; rfl)

theorem Slotter.pushAll_reachable (L : Nat) :
    ∀ (slices : List (List BYTE)) (s : Slotter), Slotter.Reachable L s →
      (∀ block ∈ slices, block.length = L) → Slotter.Reachable L (Slotter.pushAll s slices) := by
  intro slices
  induction slices with
  | nil =>
    intro s h _
    exact h
  | cons block rest ih =>
    intro s h hall
    have hb : block.length = L := hall block (List.mem_cons_self _ _)
    exact ih (Slotter.push s (some block))
      (Slotter.Reachable.push s (some block) h
        (fun b hb' => by injection hb' with hb'; rw [← hb']; exact hb))
      (fun b hm => hall b (List.mem_cons_of_mem _ hm))

theorem Slotter.filled410_facts :
    Slotter.Reachable 20 Slotter.filled410 ∧ Slotter.Inv 20 Slotter.filled410 ∧
      Slotter.filled410.dwAvailable = 8200 := by
  have hall : ∀ block ∈ List.replicate 410 (List.replicate 20 (7 : BYTE)), block.length = 20 := by
    intro block hb
    rw [List.eq_of_mem_replicate hb]
    exact List.length_replicate _ _
  have hdef : Slotter.filled410
      = Slotter.pushAll (Slotter.create ((20 : Nat) : Int))
          (List.replicate 410 (List.replicate 20 (7 : BYTE))) := rfl
  rw [hdef]
  obtain ⟨hinv, hp⟩ := Slotter.pushAll_spec 20 (List.replicate 410 (List.replicate 20 (7 : BYTE)))
    (Slotter.create ((20 : Nat) : Int)) (Slotter.inv_create 20) hall
  refine ⟨Slotter.pushAll_reachable 20 _ _ Slotter.Reachable.start hall, hinv, ?_⟩
  have hp0 : Slotter.pending (Slotter.create ((20 : Nat) : Int)) = [] := by
    simp [Slotter.create, Slotter.pending]
  rw [hinv.2, hp, hp0, List.nil_append, length_flatten_const 20 _ hall, List.length_replicate]
  decide

theorem Protocol.serve_overrun (fuel : Nat) (p : Protocol) (slotter : Slotter)
    (counter : Counter) (n res : Nat) (succ : Bool) (slotter1 : Slotter) (out : List BYTE)
    (hreq : Slotter.request fuel slotter true res = Except.ok (succ, slotter1, out))
    (hover : p.buffer.length < 1 + out.length) :
    Protocol.serve fuel p slotter counter n res = Except.error Fault.memory := by
  unfold Protocol.serve
  rw [hreq]
  simp only [if_pos hover]

theorem Protocol.handle_read_overrun (L : Nat) (hL : 0 < L) (b0 b1 b2 b3 : Nat) (fuel : Nat)
    (p : Protocol) (slotter : Slotter) (counter : Counter)
    (h0 : b0 < 256) (h1 : b1 < 256) (h2 : b2 < 256) (h3 : b3 < 256)
    (hrecv : p.bytesRECV = 0) (hfit : p.dataBufOffset + 4 ≤ p.buffer.length)
    (hlen : p.buffer.length = DATABUFSIZE) (hinv : Slotter.Inv L slotter)
    (hav : b0 * 16777216 + b1 * 65536 + b2 * 256 + b3 ≤ slotter.dwAvailable)
    (hint : b0 * 16777216 + b1 * 65536 + b2 * 256 + b3 < INT_LIMIT)
    (hbig : DATABUFSIZE < b0 * 16777216 + b1 * 65536 + b2 * 256 + b3 + 1)
    (hfuel : b0 * 16777216 + b1 * 65536 + b2 * 256 + b3 ≤ fuel) :
    (∃ slotter1 out, Slotter.request fuel slotter true
        (b0 * 16777216 + b1 * 65536 + b2 * 256 + b3) = Except.ok (true, slotter1, out) ∧
      out.length = b0 * 16777216 + b1 * 65536 + b2 * 256 + b3) ∧
    Protocol.handle fuel (Protocol.received p [b0, b1, b2, b3]) slotter counter 4
      = Except.error Fault.memory := by
  have hd := Protocol.handle_read_decoded b0 b1 b2 b3 fuel p slotter counter h0 h1 h2 h3
    hrecv hfit
  obtain ⟨_, hl⟩ := Protocol.received_window p [b0, b1, b2, b3] hfit
  generalize Protocol.received p [b0, b1, b2, b3] = q at hd hl
  generalize b0 * 16777216 + b1 * 65536 + b2 * 256 + b3 = c at hd hav hint hbig hfuel
  obtain ⟨s1, hreq, _, _, _⟩ := Slotter.doRequest_total L hL fuel slotter c hinv hav hint hfuel
  have hmod : (Slotter.pending slotter).length % DWORD_MOD ≤ (Slotter.pending slotter).length :=
    Nat.mod_le _ _
  have hout : ((Slotter.pending slotter).take c).length = c := by
    rw [List.length_take, min_eq_left]
    rw [hinv.2] at hav
    omega
  have hs := Protocol.serve_overrun fuel q slotter counter 4 c true s1 _ hreq
    (by rw [hout, hl, hlen]; omega)
  rw [hs] at hd
  exact ⟨⟨s1, _, hreq, hout⟩, hd⟩

/-- C14, the code at the failing input: the Slotter holds 8200 bytes (410
slices of 20 bytes) and the request is `00 00 20 00` (count 8192).
`Slotter::request(buffer + 1, 8192)` succeeds and writes 8192 bytes, so
`count + 1 = 8193` exceeds `DATABUFSIZE`: the payload does not fit behind the
status byte and `handle` has no defined result (the copy runs past the end of
the session buffer). -/
theorem Protocol.response_overruns_session_buffer :
    Slotter.Reachable 20 Slotter.filled410 ∧ Slotter.available Slotter.filled410 = 8200 ∧
    (∃ slotter1 out, Slotter.request 8192 Slotter.filled410 true 8192
        = Except.ok (true, slotter1, out) ∧ out.length = 8192) ∧
    ¬ (8192 + 1 ≤ DATABUFSIZE) ∧
    Protocol.handle 8192 (Protocol.received Protocol.fresh [0, 0, 32, 0]) Slotter.filled410
        Counter.new 4
      = Except.error Fault.memory := by
  obtain ⟨hreach, hinv, hav⟩ := Slotter.filled410_facts
  obtain ⟨hreq, hh⟩ := Protocol.handle_read_overrun 20 (by decide) 0 0 32 0 8192 Protocol.fresh
    Slotter.filled410 Counter.new (by decide) (by decide) (by decide) (by decide)
    Protocol.fresh_fields.1
    (by rw [Protocol.fresh_fields.2.1, Protocol.fresh_fields.2.2]; decide)
    Protocol.fresh_fields.2.2 hinv (by rw [hav]; decide) (by decide) (by decide) (by decide)
  exact ⟨hreach, hav, hreq, by decide, hh⟩


/-! ### Slotter: which faults a request can end in -/

theorem Slotter.gather_only_fuel_fault (L : Nat) (hL : 0 < L) :
    ∀ (fuel : Nat) (s : Slotter) (gathered count : Nat) (out : List BYTE),
      Slotter.WF L s → gathered ≤ count → count < DWORD_MOD →
      count - gathered < INT_LIMIT → count - gathered ≤ (Slotter.pending s).length →
      (∃ r, Slotter.gather fuel s gathered count out = Except.ok r) ∨
        Slotter.gather fuel s gathered count out = Except.error Fault.fuel := by
  intro fuel
  induction fuel with
  | zero =>
    intro s gathered count out _ _ _ _ _
    rw [Slotter.gather]
    by_cases hlt : gathered < count
    · rw [if_pos hlt]
      exact Or.inr rfl
    · rw [if_neg hlt]
      exact Or.inl ⟨_, rfl⟩
  | succ fuel ih =>
    intro s gathered count out hwf hgc hcount hint hpend
    by_cases hlt : gathered < count
    · have hn1 : 0 < count - gathered := by omega
      obtain ⟨s1, hu, hwf1, hp1, hpos1, _⟩ :=
        Slotter.updateSlice_spec L s hL hwf (by omega)
      obtain ⟨s2, hc, hwf2, hp2, _⟩ :=
        Slotter.copyFromSlice_spec L s1 (count - gathered) hwf1 hpos1 hn1
      have hreq : toInt (dwSub count gathered) = ((count - gathered : Nat) : Int) := by
        rw [dwSub_of_le count gathered hgc hcount, toInt_of_lt _ hint]
      generalize hk : min (count - gathered) s1.slice_avail.toNat = k at hc hp2
      have hk2 : k ≤ count - gathered := by
        rw [← hk]
        exact min_le_left _ _
      have hg : toDWORD ((gathered : Int) + (k : Int)) = gathered + k := by
        rw [← Nat.cast_add, toDWORD_natCast _ (by omega)]
      have hlen2 : (Slotter.pending s2).length = (Slotter.pending s).length - k := by
        rw [hp2, hp1, List.length_drop]
      have hstep : Slotter.gather (fuel + 1) s gathered count out
          = Slotter.gather fuel s2 (gathered + k) count
              (out ++ (Slotter.pending s1).take k) := by
        rw [Slotter.gather, if_pos hlt, hu]
        simp only [hreq, hc, hg]
      rw [hstep]
      exact ih s2 (gathered + k) count _ hwf2 (by omega) hcount (by omega) (by omega)
    · rw [Slotter.gather, if_neg hlt]
      exact Or.inl ⟨_, rfl⟩

theorem Slotter.gather_large_fault_kind (L : Nat) (hL : 0 < L) (fuel : Nat) (s : Slotter)
    (count : Nat) (out : List BYTE) (h : Slotter.WF L s) (hbig : INT_LIMIT ≤ count)
    (hcount : count < DWORD_MOD) (hpend : count ≤ (Slotter.pending s).length) :
    Slotter.gather fuel s 0 count out
      = Except.error (if fuel = 0 then Fault.fuel else Fault.memory) := by
  have hlt : 0 < count := by unfold INT_LIMIT at hbig; omega
  cases fuel with
  | zero =>
    simp only [Slotter.gather, if_pos hlt, if_true]
  | succ fuel =>
    obtain ⟨s1, hu, hwf1, _, hpos1, _⟩ := Slotter.updateSlice_spec L s hL h (by omega)
    have hreq : toInt (dwSub count 0) < 0 := by
      rw [dwSub_of_le count 0 (Nat.zero_le _) hcount]
      exact toInt_neg_of_ge _ hbig hcount
    simp only [Slotter.gather, if_pos hlt, hu]
    rw [Slotter.copyFromSlice_negative L s1 _ hwf1 hpos1 hreq, if_neg (Nat.succ_ne_zero _)]

theorem Slotter.request_fault_kinds (L : Nat) (hL : 0 < L) (fuel : Nat) (s : Slotter)
    (buffer : Bool) (count : Nat) (hinv : Slotter.Inv L s) (hcount : count < DWORD_MOD) :
    Slotter.request fuel s buffer count ≠ Except.error Fault.assertion ∧
      (count < INT_LIMIT → Slotter.request fuel s buffer count ≠ Except.error Fault.memory) ∧
      (INT_LIMIT ≤ count → count ≤ s.dwAvailable → 0 < fuel →
        Slotter.request fuel s true count = Except.error Fault.memory) := by
  have hmod : (Slotter.pending s).length % DWORD_MOD ≤ (Slotter.pending s).length :=
    Nat.mod_le _ _
  have hlarge : INT_LIMIT ≤ count → count ≤ s.dwAvailable →
      Slotter.request fuel s true count
        = Except.error (if fuel = 0 then Fault.fuel else Fault.memory) := by
    intro hbig hav
    have hg := Slotter.gather_large_fault_kind L hL fuel s count [] hinv.1 hbig hcount
      (by rw [hinv.2] at hav; omega)
    unfold Slotter.request Slotter.doRequest
    rw [if_neg (by omega), if_pos rfl, hg]
  have hsmall : count < INT_LIMIT → count ≤ s.dwAvailable →
      (∃ r, Slotter.request fuel s true count = Except.ok r) ∨
        Slotter.request fuel s true count = Except.error Fault.fuel := by
    intro hint hav
    have hg := Slotter.gather_only_fuel_fault L hL fuel s 0 count [] hinv.1 (Nat.zero_le _)
      hcount (by omega) (by rw [hinv.2] at hav; omega)
    unfold Slotter.request Slotter.doRequest
    rw [if_neg (by omega), if_pos rfl]
    rcases hg with ⟨r, hr⟩ | hr
    · rw [hr]
      exact Or.inl ⟨_, rfl⟩
    · rw [hr]
      exact Or.inr rfl
  have hother : (¬ count ≤ s.dwAvailable ∨ buffer = false) →
      ∃ r, Slotter.request fuel s buffer count = Except.ok r := by
    intro hc
    unfold Slotter.request Slotter.doRequest
    by_cases hgt : count > s.dwAvailable
    · rw [if_pos hgt]
      exact ⟨_, rfl⟩
    · rw [if_neg hgt]
      rcases hc with hc | hc
      · exact absurd (by omega) hc
      · rw [hc, if_neg (by simp)]
        exact ⟨_, rfl⟩
  refine ⟨?_, ?_, ?_⟩
  · intro hc
    by_cases hav : count ≤ s.dwAvailable
    · cases buffer with
      | false =>
        obtain ⟨r, hr⟩ := hother (Or.inr rfl)
        rw [hr] at hc
        cases hc
      | true =>
        by_cases hint : count < INT_LIMIT
        · rcases hsmall hint hav with ⟨r, hr⟩ | hr
          · rw [hr] at hc
            cases hc
          · rw [hr] at hc
            cases hc
        · rw [hlarge (by omega) hav] at hc
          by_cases hf : fuel = 0
          · rw [if_pos hf] at hc
            cases hc
          · rw [if_neg hf] at hc
            cases hc
    · obtain ⟨r, hr⟩ := hother (Or.inl hav)
      rw [hr] at hc
      cases hc
  · intro hint hc
    by_cases hav : count ≤ s.dwAvailable
    · cases buffer with
      | false =>
        obtain ⟨r, hr⟩ := hother (Or.inr rfl)
        rw [hr] at hc
        cases hc
      | true =>
        rcases hsmall hint hav with ⟨r, hr⟩ | hr
        · rw [hr] at hc
          cases hc
        · rw [hr] at hc
          cases hc
    · obtain ⟨r, hr⟩ := hother (Or.inl hav)
      rw [hr] at hc
      cases hc
  · intro hbig hav hfuel
    rw [hlarge hbig hav, if_neg (by omega)]


/-- C15, refuted as stated: with `2^32 - 2` bytes held (two slices of
`2^31 - 1` bytes) the request `request(dst, 4000000000)` has
`count <= available`; in its first loop iteration `copyFromSlice` receives the
count as the negative `int` -294967296 and hands it to `memcpy` as the length:
the read from the partial slice does not stay within its `L` bytes. -/
theorem Slotter.large_request_reads_outside_slice :
    Slotter.Reachable 2147483647 (Slotter.maxFilled 2) ∧
      4000000000 ≤ Slotter.available (Slotter.maxFilled 2) ∧
      toInt (dwSub 4000000000 0) = -294967296 ∧
      Slotter.request 1 (Slotter.maxFilled 2) true 4000000000
        = Except.error Fault.memory := by
  have hreach := Slotter.maxFilled_reachable 2
  have hinv := Slotter.reachable_inv 2147483647 (by decide) _ hreach
  have hav : 4000000000 ≤ (Slotter.maxFilled 2).dwAvailable := by
    rw [Slotter.maxFilled_two_available]
    decide
  exact ⟨hreach, hav, by decide,
    (Slotter.request_fault_kinds 2147483647 (by decide) 1 (Slotter.maxFilled 2) true 4000000000
      hinv (by decide)).2.2 (by decide) hav (by decide)⟩

/-- C15 (partial-slice invariant and assertion validity, amended): in every
Slotter state reachable from the constructor call with slice length `L > 0`,
`0 <= slice_avail <= L`, the partial slice is present exactly when
`slice_avail > 0`, and the partial slice and every queued slice are blocks of
`L` bytes; hence no request, whatever its `DWORD` count, destination and loop
budget, ends in a failed assertion of `updateSlice` or `copyFromSlice`, and no
request of fewer than `2^31` bytes ends in a `memcpy` that leaves the `L` bytes
of the partial slice. -/
theorem Slotter.partial_slice_invariant (L : Nat) (s : Slotter) (hL : 0 < L)
    (h : Slotter.Reachable L s) :
    0 ≤ s.slice_avail ∧ s.slice_avail ≤ (L : Int) ∧
    (s.slice ≠ none ↔ 0 < s.slice_avail) ∧
    (∀ block, s.slice = some block → block.length = L) ∧
    (∀ block ∈ s.slots, block.length = L) ∧
    (∀ fuel buffer count, count < DWORD_MOD →
      Slotter.request fuel s buffer count ≠ Except.error Fault.assertion) ∧
    (∀ fuel buffer count, count < INT_LIMIT →
      Slotter.request fuel s buffer count ≠ Except.error Fault.memory) := by
  have hinv := Slotter.reachable_inv L hL s h
  obtain ⟨_, h0, hle, hnone, hsome, hslots⟩ := hinv.1
  refine ⟨h0, hle, ?_, ?_, hslots, ?_, ?_⟩
  · constructor
    · intro hne
      rcases lt_or_ge 0 s.slice_avail with hpos | hnp
      · exact hpos
      · exact absurd (hnone (by omega)) hne
    · intro hpos hn
      obtain ⟨block, hb, _⟩ := hsome hpos
      rw [hn] at hb
      cases hb
  · intro block hb
    rcases lt_or_ge 0 s.slice_avail with hpos | hnp
    · obtain ⟨block2, hb2, hl2⟩ := hsome hpos
      rw [hb] at hb2
      injection hb2 with hb2
      rw [hb2]
      exact hl2
    · rw [hnone (by omega)] at hb
      cases hb
  · intro fuel buffer count hcount
    exact (Slotter.request_fault_kinds L hL fuel s buffer count hinv hcount).1
  · intro fuel buffer count hint
    exact (Slotter.request_fault_kinds L hL fuel s buffer count hinv
      (by unfold INT_LIMIT at hint; unfold DWORD_MOD; omega)).2.1 hint

/-- Witness for C15: one whole slice of 20 bytes queued, no partial slice. -/
theorem Slotter.partial_slice_invariant_witness :
    Slotter.Reachable 20 Slotter.oneSlice ∧ 0 ≤ Slotter.oneSlice.slice_avail ∧
      Slotter.oneSlice.slice_avail ≤ ((20 : Nat) : Int) ∧
      (Slotter.oneSlice.slice ≠ none ↔ 0 < Slotter.oneSlice.slice_avail) ∧
      Slotter.request 7 Slotter.oneSlice true 7 ≠ Except.error Fault.assertion ∧
      Slotter.request 7 Slotter.oneSlice true 7 ≠ Except.error Fault.memory :=
  have h := Slotter.partial_slice_invariant 20 Slotter.oneSlice (by decide)
    Slotter.oneSlice_reachable
  ⟨Slotter.oneSlice_reachable, h.1, h.2.1, h.2.2.1, h.2.2.2.2.2.1 7 true 7 (by decide),
   h.2.2.2.2.2.2 7 true 7 (by decide)⟩


/-! ### Protocol: the count given to the Slotter and to the statistics counter -/

/-- C9, refuted as stated: the request `80 00 00 00` (count `2^31`) on an
empty Slotter.  The count decodes to `2147483648`, and this is the count
`Slotter::request` is asked for (it refuses, nothing being held), but the
statistics counter, whose parameter is an `int`, receives `-2147483648`:
after the call its `lastRequest` is `-2147483648`, not `2147483648`. -/
theorem Protocol.counter_receives_negative_size :
    ntohl (loadLE [128, 0, 0, 0]) = 2147483648 ∧
    Slotter.request 0 (Slotter.create 20) true 2147483648
      = Except.ok (false, Slotter.create 20, []) ∧
    ∃ p1 posted counter1,
      Protocol.handle 0 (Protocol.received Protocol.fresh [128, 0, 0, 0]) (Slotter.create 20)
          Counter.new 4
        = Except.ok ((p1, posted), Slotter.create 20, counter1) ∧
      counter1.lastRequest = -2147483648 ∧
      counter1.lastRequest ≠ ((128 * 16777216 + 0 * 65536 + 0 * 256 + 0 : Nat) : Int) := by
  refine ⟨ntohl_loadLE 128 0 0 0 (by decide) (by decide) (by decide) (by decide),
    Slotter.request_beyond_available_unchanged_aux 0 (Slotter.create 20) true 2147483648
      (by decide), ?_⟩
  obtain ⟨p1, hd, _⟩ := Protocol.handle_read_insufficient 128 0 0 0 0 Protocol.fresh
    (Slotter.create 20) Counter.new (by decide) (by decide) (by decide) (by decide)
    Protocol.fresh_fields.1
    (by rw [Protocol.fresh_fields.2.1, Protocol.fresh_fields.2.2]; decide) (by decide)
  exact ⟨_, _, _, hd, rfl, by decide⟩

/-- C9 (big-endian request decoding, amended): for every four request bytes
`b0 b1 b2 b3` that one read delivers at `dataBuf.buf` while `bytesRECV == 0`,
`ntohl` of the copied `DWORD` is `c = b0*2^24 + b1*2^16 + b2*2^8 + b3`, and `c`
is the count `handle` asks `Slotter::request` for: if that call at count `c`
has no result, `handle` has none; if it returns `(succ, slotter1, out)`, then
`handle` either overruns the session buffer (`1 + |out|` exceeds its length)
or returns with the Slotter state `slotter1` and with the statistics counter
after `registerRequest(int(c), succ)`.  The counter receives `c` converted to
`int`, that is `c` for `c < 2^31` and `c - 2^32` otherwise, and records it as
`lastRequest`.  The four bytes the client sends for `n < 2^32`, the memory
image of `htonl(n)`, decode to `n`. -/
theorem Protocol.request_count_big_endian (b0 b1 b2 b3 : Nat) (fuel : Nat) (p : Protocol)
    (slotter : Slotter) (counter : Counter)
    (h0 : b0 < 256) (h1 : b1 < 256) (h2 : b2 < 256) (h3 : b3 < 256)
    (hrecv : p.bytesRECV = 0) (hfit : p.dataBufOffset + 4 ≤ p.buffer.length) :
    ntohl (loadLE [b0, b1, b2, b3]) = b0 * 16777216 + b1 * 65536 + b2 * 256 + b3 ∧
    (∀ e, Slotter.request fuel slotter true (b0 * 16777216 + b1 * 65536 + b2 * 256 + b3)
        = Except.error e →
      Protocol.handle fuel (Protocol.received p [b0, b1, b2, b3]) slotter counter 4
        = Except.error e) ∧
    (∀ succ slotter1 out,
      Slotter.request fuel slotter true (b0 * 16777216 + b1 * 65536 + b2 * 256 + b3)
        = Except.ok (succ, slotter1, out) →
      (p.buffer.length < 1 + out.length →
        Protocol.handle fuel (Protocol.received p [b0, b1, b2, b3]) slotter counter 4
          = Except.error Fault.memory) ∧
      (1 + out.length ≤ p.buffer.length →
        ∃ p1 posted,
          Protocol.handle fuel (Protocol.received p [b0, b1, b2, b3]) slotter counter 4
            = Except.ok ((p1, posted), slotter1,
                Counter.registerRequest counter
                  (toInt (b0 * 16777216 + b1 * 65536 + b2 * 256 + b3)) succ) ∧
          ((p1.buffer.drop 1).take out.length = out))) ∧
    (∀ succ, (Counter.registerRequest counter
        (toInt (b0 * 16777216 + b1 * 65536 + b2 * 256 + b3)) succ).lastRequest
      = toInt (b0 * 16777216 + b1 * 65536 + b2 * 256 + b3)) ∧
    toInt (b0 * 16777216 + b1 * 65536 + b2 * 256 + b3)
      = (if b0 * 16777216 + b1 * 65536 + b2 * 256 + b3 < 2147483648
         then ((b0 * 16777216 + b1 * 65536 + b2 * 256 + b3 : Nat) : Int)
         else ((b0 * 16777216 + b1 * 65536 + b2 * 256 + b3 : Nat) : Int) - 4294967296) ∧
    (∀ n, n < DWORD_MOD → ntohl (loadLE (storeLE (htonl n))) = n) := by
  have hd := Protocol.handle_read_decoded b0 b1 b2 b3 fuel p slotter counter h0 h1 h2 h3
    hrecv hfit
  obtain ⟨_, hl⟩ := Protocol.received_window p [b0, b1, b2, b3] hfit
  have hc : b0 * 16777216 + b1 * 65536 + b2 * 256 + b3 < 4294967296 := by omega
  refine ⟨ntohl_loadLE b0 b1 b2 b3 h0 h1 h2 h3, ?_, ?_, ?_, ?_, loadLE_storeLE_htonl⟩
  · generalize Protocol.received p [b0, b1, b2, b3] = q at hd hl
    generalize b0 * 16777216 + b1 * 65536 + b2 * 256 + b3 = c at hd
    intro e he
    rw [hd]
    unfold Protocol.serve
    rw [he]
  · generalize Protocol.received p [b0, b1, b2, b3] = q at hd hl
    generalize b0 * 16777216 + b1 * 65536 + b2 * 256 + b3 = c at hd
    intro succ slotter1 out hreq
    constructor
    · intro hbig
      rw [hd, Protocol.serve_overrun fuel q slotter counter 4 c succ slotter1 out hreq
        (by rw [hl]; exact hbig)]
    · intro hsmall
      have hn : ¬ q.buffer.length < 1 + out.length := by
        rw [hl]
        omega
      have hw : ∀ b : BYTE,
          ((writeAt (writeAt q.buffer 1 out) 0 [b]).drop 1).take out.length = out := by
        intro b
        cases hb : q.buffer with
        | nil =>
          rw [hb] at hn
          simp at hn
        | cons b0 rest =>
          have hr : out.length ≤ rest.length := by
            rw [hb] at hn
            simp only [List.length_cons] at hn
            omega
          simp only [writeAt, List.take_succ_cons, List.take_zero, List.nil_append,
            List.singleton_append, List.length_singleton, zero_add, List.cons_append,
            List.drop_succ_cons, List.drop_zero]
          rw [List.take_append_of_le_length (le_refl _), List.take_length]
      have key : ∀ (b : BYTE) (q1 : Protocol) (cnt : Counter),
          q1.buffer = writeAt (writeAt q.buffer 1 out) 0 [b] →
          ∃ p1 posted,
            (Except.ok (Protocol.postNext q1, slotter1, cnt) :
                Except Fault ((Protocol × Posted) × Slotter × Counter))
              = Except.ok ((p1, posted), slotter1, cnt) ∧
            (p1.buffer.drop 1).take out.length = out := by
        intro b q1 cnt hb
        refine ⟨(Protocol.postNext q1).1, (Protocol.postNext q1).2, rfl, ?_⟩
        rw [(Protocol.postNext_expected q1).2.1, hb]
        exact hw b
      rw [hd]
      unfold Protocol.serve
      rw [hreq]
      cases succ with
      | false =>
        simp only [if_neg hn, Bool.false_eq_true, if_false]
        exact key ENTROPY_FAIL _ _ rfl
      | true =>
        simp only [if_neg hn, if_true]
        exact key ENTROPY_SUCCESS _ _ rfl
  · intro succ
    exact (Counter.registerRequest_fields counter _ succ).1
  · generalize b0 * 16777216 + b1 * 65536 + b2 * 256 + b3 = c at hc
    unfold toInt DWORD_MOD INT_LIMIT
    have hm : c % 4294967296 = c := Nat.mod_eq_of_lt hc
    rw [hm]

/-- Witness for C9: the request `00 00 00 05` decodes to 5; with 20 bytes held
`Slotter::request` is asked for 5 bytes and delivers them, and the call of
`handle` returns the Slotter state of that request and the statistics counter
after `registerRequest(5, true)`, whose `lastRequest` is 5. -/
theorem Protocol.request_count_big_endian_witness :
    ntohl (loadLE [0, 0, 0, 5]) = 5 ∧ ntohl (loadLE (storeLE (htonl 5))) = 5 ∧
    ∃ slotter1,
      Slotter.request 5 Slotter.oneSlice true 5
        = Except.ok (true, slotter1, [1, 1, 1, 1, 1]) ∧
      (∃ p1 posted,
        Protocol.handle 5 (Protocol.received Protocol.fresh [0, 0, 0, 5]) Slotter.oneSlice
            Counter.new 4
          = Except.ok ((p1, posted), slotter1, Counter.registerRequest Counter.new 5 true) ∧
        (p1.buffer.drop 1).take 5 = [1, 1, 1, 1, 1]) ∧
      (Counter.registerRequest Counter.new 5 true).lastRequest = 5 :=
  have h := Protocol.request_count_big_endian 0 0 0 5 5 Protocol.fresh Slotter.oneSlice
    Counter.new (by decide) (by decide) (by decide) (by decide) Protocol.fresh_fields.1
    (by rw [Protocol.fresh_fields.2.1, Protocol.fresh_fields.2.2]; decide)
  ⟨h.1, h.2.2.2.2.2 5 (by decide), _, rfl,
   (h.2.2.1 true _ [1, 1, 1, 1, 1] rfl).2
     (by rw [Protocol.fresh_fields.2.2]; decide),
   h.2.2.2.1 true⟩

/-! ### Protocol: the response length law -/

end Entropy

